/-
Verification of the DVF data-preparation pipeline (DataViz_Streamlit).

Shallow embedding of:
  - utils/io.py   : header normalization, numeric coercion, directory
                    signatures, cache signature comparison, load_data tail.
  - utils/prep.py : the make_df_clean cleaning pipeline over data frames.
  - app.py        : the process-memory cached wrappers (modelled from the
                    spec, since their definitions are not in the sources).

Data frames are modelled as a list of column names plus a list of rows,
each row a list of cells; a cell is null (NaN/NaT), a string, a rational
number (standing for a float) or a date.
-/
import Mathlib

/-! ## Python string helpers -/

/-- Characters stripped by Python `str.strip()` (ASCII and Unicode
whitespace recognised by `str.isspace`). -/
def pyIsSpace (c : Char) : Bool :=
  let n := c.toNat
  (decide (9 ≤ n) && decide (n ≤ 13)) || (decide (28 ≤ n) && decide (n ≤ 31)) ||
  decide (n = 32) || decide (n = 133) || decide (n = 160) || decide (n = 0x1680) ||
  (decide (0x2000 ≤ n) && decide (n ≤ 0x200a)) || decide (n = 0x2028) ||
  decide (n = 0x2029) || decide (n = 0x202f) || decide (n = 0x205f) ||
  decide (n = 0x3000)

/-- Strip characters satisfying `p` from both ends of a character list
(the model of Python `str.strip` / `str.strip("_")`). -/
def stripEnds (p : Char → Bool) (l : List Char) : List Char :=
  ((l.dropWhile p).reverse.dropWhile p).reverse

/-- ASCII alphanumeric test, the model of the regex class `[0-9a-zA-Z]`
(48–57 are the digits, 97–122 the lowercase and 65–90 the uppercase
letters). -/
def isAlnumAscii (c : Char) : Bool :=
  let n := c.toNat
  (decide (48 ≤ n) && decide (n ≤ 57)) ||
  (decide (97 ≤ n) && decide (n ≤ 122)) ||
  (decide (65 ≤ n) && decide (n ≤ 90))

/-- Model of `re.sub(pat+, sub, s)` for a single-character-class pattern:
each maximal run of characters satisfying `p` becomes the single
character `sub`. -/
def collapseRuns (p : Char → Bool) (sub : Char) : List Char → List Char
  | [] => []
  | c :: cs =>
    if p c then sub :: collapseRuns p sub (cs.dropWhile p)
    else c :: collapseRuns p sub cs
termination_by l => l.length
decreasing_by
  · simp only [List.length_cons]
    exact Nat.lt_succ_of_le (List.Sublist.length_le (List.dropWhile_sublist p))
  · simp

/-- Python `str.lower()` restricted to ASCII letters; the only characters
reaching the final `.lower()` of `_snake` are ASCII alphanumerics and
underscores, on which this agrees with Python. -/
def pyLowerChar (c : Char) : Char :=
  if 65 ≤ c.toNat ∧ c.toNat ≤ 90 then Char.ofNat (c.toNat + 32) else c

/-- Embedding of `_snake` from utils/io.py: strip whitespace, turn
parentheses and slashes into spaces, collapse runs of non-alphanumerics
to a single underscore, collapse runs of underscores, strip underscores,
lowercase. -/
def _snake (s : List Char) : List Char :=
  let s1 := stripEnds pyIsSpace s
  let s2 := s1.map (fun c => if c = '(' || c = ')' || c = '/' then ' ' else c)
  let s3 := collapseRuns (fun c => !isAlnumAscii c) '_' s2
  let s4 := collapseRuns (fun c => c = '_') '_' s3
  let s5 := stripEnds (fun c => c = '_') s4
  s5.map pyLowerChar

/-! ## Facts about the header normalizer -/

theorem char_toNat_inj {a b : Char} (h : a.toNat = b.toNat) : a = b := by
  cases a; cases b
  simp only [Char.toNat] at h
  congr 1
  exact UInt32.toNat.inj h

theorem char_toNat_ofNat {n : Nat} (h : n.isValidChar) : (Char.ofNat n).toNat = n := by
  unfold Char.ofNat
  rw [dif_pos h]
  rfl

/-- The characters that can appear in a `_snake` output: an underscore, or
an ASCII alphanumeric that is not an uppercase letter. -/
def snakeOutChar (c : Char) : Prop :=
  c = '_' ∨ (isAlnumAscii c = true ∧ ¬(65 ≤ c.toNat ∧ c.toNat ≤ 90))

theorem snakeOutChar_not_space {c : Char} (h : snakeOutChar c) : pyIsSpace c = false := by
  rcases h with h | ⟨h1, h2⟩
  · subst h; decide
  · simp only [isAlnumAscii, Bool.or_eq_true, Bool.and_eq_true, decide_eq_true_eq] at h1
    simp only [pyIsSpace, Bool.or_eq_false_iff, Bool.and_eq_false_iff, decide_eq_false_iff_not]
    omega

theorem snakeOutChar_not_paren {c : Char} (h : snakeOutChar c) :
    (c = '(' || c = ')' || c = '/') = false := by
  rcases h with h | ⟨h1, _⟩
  · subst h; decide
  · simp only [isAlnumAscii, Bool.or_eq_true, Bool.and_eq_true, decide_eq_true_eq] at h1
    simp only [Bool.or_eq_false_iff, decide_eq_false_iff_not]
    refine ⟨⟨fun hc => ?_, fun hc => ?_⟩, fun hc => ?_⟩ <;> (subst hc; revert h1; decide)

theorem snakeOutChar_alnum_iff {c : Char} (h : snakeOutChar c) :
    ((!isAlnumAscii c) = true ↔ c = '_') := by
  rcases h with h | ⟨h1, _⟩
  · subst h; constructor
    · intro _; rfl
    · intro _; decide
  · rw [h1]
    simp only [Bool.not_true, Bool.false_eq_true, false_iff]
    intro hc; subst hc; revert h1; decide

theorem snakeOutChar_lower_fix {c : Char} (h : snakeOutChar c) : pyLowerChar c = c := by
  rcases h with h | ⟨_, h2⟩
  · subst h; decide
  · simp only [pyLowerChar]
    rw [if_neg h2]

theorem pyLowerChar_eq_underscore {c : Char} (h : pyLowerChar c = '_') : c = '_' := by
  by_cases hc : 65 ≤ c.toNat ∧ c.toNat ≤ 90
  · exfalso
    have hv : (c.toNat + 32).isValidChar := by
      left; omega
    have ht := char_toNat_ofNat hv
    simp only [pyLowerChar, if_pos hc] at h
    rw [h] at ht
    have : ('_').toNat = 95 := by decide
    omega
  · simpa only [pyLowerChar, if_neg hc] using h

theorem pyLowerChar_alnum {c : Char} (h : isAlnumAscii c = true) :
    snakeOutChar (pyLowerChar c) := by
  simp only [isAlnumAscii, Bool.or_eq_true, Bool.and_eq_true, decide_eq_true_eq] at h
  by_cases hc : 65 ≤ c.toNat ∧ c.toNat ≤ 90
  · have hv : (c.toNat + 32).isValidChar := by left; omega
    have ht : (Char.ofNat (c.toNat + 32)).toNat = c.toNat + 32 := char_toNat_ofNat hv
    right
    simp only [pyLowerChar, if_pos hc]
    constructor
    · simp only [isAlnumAscii, Bool.or_eq_true, Bool.and_eq_true, decide_eq_true_eq, ht]
      omega
    · rw [ht]; omega
  · right
    simp only [pyLowerChar, if_neg hc]
    constructor
    · simp only [isAlnumAscii, Bool.or_eq_true, Bool.and_eq_true, decide_eq_true_eq]
      omega
    · omega

theorem dropWhile_head_false {p : Char → Bool} :
    ∀ {l : List Char} {d : Char} {ds : List Char}, l.dropWhile p = d :: ds → p d = false
  | [], _, _, h => by simp [List.dropWhile] at h
  | c :: cs, d, ds, h => by
    by_cases hc : p c = true
    · rw [List.dropWhile_cons_of_pos hc] at h
      exact dropWhile_head_false h
    · rw [List.dropWhile_cons_of_neg hc] at h
      cases h
      simpa using hc

theorem dropWhile_eq_self_of_head {p : Char → Bool} {l : List Char}
    (h : ∀ d, l.head? = some d → p d = false) : l.dropWhile p = l := by
  cases l with
  | nil => rfl
  | cons c cs =>
    exact List.dropWhile_cons_of_neg (by simp [h c rfl])

theorem stripEnds_eq_self_of_ends {p : Char → Bool} {l : List Char}
    (h1 : ∀ d, l.head? = some d → p d = false)
    (h2 : ∀ d, l.getLast? = some d → p d = false) : stripEnds p l = l := by
  unfold stripEnds
  rw [dropWhile_eq_self_of_head h1, dropWhile_eq_self_of_head
    (by intro d hd; exact h2 d (by rwa [List.head?_reverse] at hd)), List.reverse_reverse]

theorem stripEnds_mid {p : Char → Bool} (l : List Char) : (stripEnds p l).IsInfix l := by
  unfold stripEnds
  have h2 : ((l.dropWhile p).reverse.dropWhile p).IsSuffix (l.dropWhile p).reverse :=
    List.dropWhile_suffix p
  have h3 : (((l.dropWhile p).reverse.dropWhile p).reverse).IsPrefix (l.dropWhile p) := by
    have := List.reverse_prefix.mpr h2
    rwa [List.reverse_reverse] at this
  exact h3.isInfix.trans (List.dropWhile_suffix p).isInfix

theorem stripEnds_head {p : Char → Bool} {l : List Char} {d : Char}
    (h : (stripEnds p l).head? = some d) : p d = false := by
  unfold stripEnds at h
  rw [List.head?_reverse] at h
  obtain ⟨t, ht⟩ :
      ((l.dropWhile p).reverse.dropWhile p).IsSuffix (l.dropWhile p).reverse :=
    List.dropWhile_suffix p
  have hne : (l.dropWhile p).reverse.dropWhile p ≠ [] := by
    intro h0; rw [h0] at h; simp at h
  have h4 : (t ++ (l.dropWhile p).reverse.dropWhile p).getLast? = some d := by
    rw [List.getLast?_append_of_ne_nil t hne]; exact h
  rw [ht, List.getLast?_reverse] at h4
  cases hA : l.dropWhile p with
  | nil => rw [hA] at h4; simp at h4
  | cons a as =>
    rw [hA] at h4
    simp only [List.head?_cons, Option.some.injEq] at h4
    subst h4
    exact dropWhile_head_false hA

theorem stripEnds_getLast {p : Char → Bool} {l : List Char} {d : Char}
    (h : (stripEnds p l).getLast? = some d) : p d = false := by
  unfold stripEnds at h
  rw [List.getLast?_reverse] at h
  rcases hm : (l.dropWhile p).reverse.dropWhile p with _ | ⟨m0, ms⟩
  · rw [hm] at h; simp at h
  · rw [hm] at h
    simp only [List.head?_cons, Option.some.injEq] at h
    subst h
    exact dropWhile_head_false hm

theorem collapseRuns_mem {p : Char → Bool} {sub : Char} :
    ∀ {l : List Char} {c : Char}, c ∈ collapseRuns p sub l →
      c = sub ∨ (c ∈ l ∧ p c = false) := by
  intro l
  induction l using collapseRuns.induct p sub with
  | case1 => intro c hc; simp [collapseRuns] at hc
  | case2 c0 cs hp ih =>
    intro c hc
    rw [collapseRuns, if_pos hp] at hc
    rcases List.mem_cons.mp hc with h | h
    · left; exact h
    · rcases ih h with h2 | ⟨h2, h3⟩
      · left; exact h2
      · right
        exact ⟨List.mem_cons_of_mem c0 (List.Sublist.mem h2 (List.dropWhile_sublist p)), h3⟩
  | case3 c0 cs hp ih =>
    intro c hc
    rw [collapseRuns, if_neg hp] at hc
    rcases List.mem_cons.mp hc with h | h
    · right
      subst h
      exact ⟨List.mem_cons_self c cs, by simpa using hp⟩
    · rcases ih h with h2 | ⟨h2, h3⟩
      · left; exact h2
      · right; exact ⟨List.mem_cons_of_mem c0 h2, h3⟩

theorem collapseRuns_head_of_neg {p : Char → Bool} {sub : Char} {m : List Char}
    {m0 : Char} {ms : List Char} (hm : m = m0 :: ms) (h0 : p m0 = false) :
    (collapseRuns p sub m).head? = some m0 := by
  subst hm
  rw [collapseRuns, if_neg (by simp [h0])]
  rfl

theorem collapseRuns_chain {p : Char → Bool} {sub : Char} (hsub : p sub = true) :
    ∀ l : List Char,
      List.Chain' (fun a b => a = sub → b ≠ sub) (collapseRuns p sub l) := by
  intro l
  induction l using collapseRuns.induct p sub with
  | case1 => simp [collapseRuns]
  | case2 c0 cs hp ih =>
    rw [collapseRuns, if_pos hp]
    rcases hm : cs.dropWhile p with _ | ⟨m0, ms⟩
    · simp only [collapseRuns]
      exact List.chain'_singleton sub
    · rw [hm] at ih
      refine List.chain'_cons'.mpr ⟨?_, ih⟩
      intro y hy _
      have h0 : p m0 = false := dropWhile_head_false hm
      have hh := @collapseRuns_head_of_neg p sub (m0 :: ms) m0 ms rfl h0
      rw [hh] at hy
      simp only [Option.mem_some_iff] at hy
      subst hy
      intro he
      rw [he, hsub] at h0
      simp at h0
  | case3 c0 cs hp ih =>
    rw [collapseRuns, if_neg hp]
    refine List.chain'_cons'.mpr ⟨?_, ih⟩
    intro y _ hc0
    exact absurd (by rw [hc0]; exact hsub) hp

theorem collapseRuns_fix {p : Char → Bool} {sub : Char} :
    ∀ {l : List Char}, (∀ c ∈ l, (p c = true ↔ c = sub)) →
      List.Chain' (fun a b => a = sub → b ≠ sub) l →
      collapseRuns p sub l = l := by
  intro l
  induction l using collapseRuns.induct p sub with
  | case1 => intro _ _; simp [collapseRuns]
  | case2 c0 cs hp ih =>
    intro hmem hch
    have hc0 : c0 = sub := (hmem c0 (List.mem_cons_self c0 cs)).mp hp
    have hdrop : cs.dropWhile p = cs := by
      cases cs with
      | nil => rfl
      | cons d ds =>
        apply List.dropWhile_cons_of_neg
        have hd : d ≠ sub := (List.chain'_cons.mp hch).1 hc0
        simp only [ne_eq, Bool.not_eq_true]
        rcases hb : p d with _ | _
        · rfl
        · exact absurd ((hmem d (by simp)).mp hb) hd
    rw [hdrop] at ih
    rw [collapseRuns, if_pos hp, hdrop,
      ih (fun c hc => hmem c (List.mem_cons_of_mem c0 hc)) hch.tail, hc0]
  | case3 c0 cs hp ih =>
    intro hmem hch
    rw [collapseRuns, if_neg hp]
    rw [ih (fun c hc => hmem c (List.mem_cons_of_mem c0 hc)) hch.tail]

theorem map_eq_self_of {f : Char → Char} :
    ∀ {l : List Char}, (∀ c ∈ l, f c = c) → l.map f = l
  | [], _ => rfl
  | c :: cs, h => by
    rw [List.map_cons, h c (List.mem_cons_self c cs),
      map_eq_self_of (fun d hd => h d (List.mem_cons_of_mem c hd))]

theorem _snake_chars {s : List Char} : ∀ c ∈ _snake s, snakeOutChar c := by
  intro c hc
  simp only [_snake] at hc
  obtain ⟨d, hd, rfl⟩ := List.mem_map.mp hc
  have hd4 := (stripEnds_mid (p := fun c => c = '_') _).sublist.subset hd
  rcases collapseRuns_mem hd4 with h | ⟨h4, hp4⟩
  · subst h
    left; decide
  · rcases collapseRuns_mem h4 with h | ⟨_, hp3⟩
    · exact absurd (by subst h; simp) (by simpa using hp4 : ¬d = '_')
    · exact pyLowerChar_alnum (by simpa using hp3)

theorem _snake_chain (s : List Char) :
    List.Chain' (fun a b => a = '_' → b ≠ '_') (_snake s) := by
  simp only [_snake]
  rw [List.chain'_map]
  refine List.Chain'.imp ?_
    ( List.Chain'.infix (collapseRuns_chain (by simp) _) (stripEnds_mid _))
  intro a b hab ha hb
  exact (hab (pyLowerChar_eq_underscore ha)) (pyLowerChar_eq_underscore hb)

theorem _snake_head {s : List Char} {d : Char} (h : (_snake s).head? = some d) :
    d ≠ '_' := by
  simp only [_snake] at h
  rw [List.head?_map] at h
  rcases h5 : (stripEnds (fun c => c = '_')
      (collapseRuns (fun c => c = '_') '_'
        (collapseRuns (fun c => !isAlnumAscii c) '_'
          ((stripEnds pyIsSpace s).map
            (fun c => if c = '(' || c = ')' || c = '/' then ' ' else c))))).head? with _ | d0
  · rw [h5] at h; cases h
  · rw [h5] at h
    simp only [Option.map_some', Option.some.injEq] at h
    subst h
    have := stripEnds_head h5
    intro hcon
    exact (by simpa using this : ¬d0 = '_') (pyLowerChar_eq_underscore hcon)

theorem _snake_getLast {s : List Char} {d : Char} (h : (_snake s).getLast? = some d) :
    d ≠ '_' := by
  simp only [_snake] at h
  rw [List.getLast?_map] at h
  rcases h5 : (stripEnds (fun c => c = '_')
      (collapseRuns (fun c => c = '_') '_'
        (collapseRuns (fun c => !isAlnumAscii c) '_'
          ((stripEnds pyIsSpace s).map
            (fun c => if c = '(' || c = ')' || c = '/' then ' ' else c))))).getLast? with _ | d0
  · rw [h5] at h; cases h
  · rw [h5] at h
    simp only [Option.map_some', Option.some.injEq] at h
    subst h
    have := stripEnds_getLast h5
    intro hcon
    exact (by simpa using this : ¬d0 = '_') (pyLowerChar_eq_underscore hcon)

/-- C8: the header normalizer `_snake` is idempotent: normalizing an
already-normalized identifier (including ones that contained parentheses
or slashes before the first pass) returns it unchanged. -/
theorem claim_C8_snake_idempotent : ∀ s : List Char, _snake (_snake s) = _snake s := by
  intro s
  have hmem : ∀ c ∈ _snake s, snakeOutChar c := _snake_chars
  have hch : List.Chain' (fun a b => a = '_' → b ≠ '_') (_snake s) := _snake_chain s
  have step1 : stripEnds pyIsSpace (_snake s) = _snake s := by
    apply stripEnds_eq_self_of_ends
    · intro d hd
      exact snakeOutChar_not_space (hmem d (List.mem_of_mem_head? (by rw [hd]; rfl)))
    · intro d hd
      exact snakeOutChar_not_space (hmem d (List.mem_of_mem_getLast? (by rw [hd]; rfl)))
  have step2 : (_snake s).map
      (fun c => if c = '(' || c = ')' || c = '/' then ' ' else c) = _snake s := by
    apply map_eq_self_of
    intro c hc
    rw [if_neg]
    simp only [snakeOutChar_not_paren (hmem c hc)]
    exact Bool.false_ne_true
  have step3 : collapseRuns (fun c => !isAlnumAscii c) '_' (_snake s) = _snake s :=
    collapseRuns_fix (fun c hc => snakeOutChar_alnum_iff (hmem c hc)) hch
  have step4 : collapseRuns (fun c => c = '_') '_' (_snake s) = _snake s :=
    collapseRuns_fix (fun c _ => by simp) hch
  have step5 : stripEnds (fun c => c = '_') (_snake s) = _snake s := by
    apply stripEnds_eq_self_of_ends
    · intro d hd
      simpa using _snake_head hd
    · intro d hd
      simpa using _snake_getLast hd
  have step6 : (_snake s).map pyLowerChar = _snake s :=
    map_eq_self_of (fun c hc => snakeOutChar_lower_fix (hmem c hc))
  calc _snake (_snake s)
      = (stripEnds (fun c => c = '_')
          (collapseRuns (fun c => c = '_') '_'
            (collapseRuns (fun c => !isAlnumAscii c) '_'
              ((stripEnds pyIsSpace (_snake s)).map
                (fun c => if c = '(' || c = ')' || c = '/' then ' ' else c))))).map
        pyLowerChar := rfl
    _ = _snake s := by rw [step1, step2, step3, step4, step5, step6]

/-! ## Decimal printing and numeric parsing -/

def isDigitChar (c : Char) : Bool := decide (48 ≤ c.toNat) && decide (c.toNat ≤ 57)

def charDigit (c : Char) : Nat := c.toNat - 48

/-- Decimal digits of a natural number, most significant first. -/
def natRepr (n : Nat) : List Char :=
  if _h : n < 10 then [Char.ofNat (48 + n)]
  else natRepr (n / 10) ++ [Char.ofNat (48 + n % 10)]
termination_by n
decreasing_by
  exact Nat.div_lt_self (by omega) (by omega)

/-- Decimal representation of an integer (with a leading minus sign when
negative), as printed by Python/json. -/
def intRepr (i : Int) : List Char :=
  if i < 0 then '-' :: natRepr (-i).toNat else natRepr i.toNat

def digitsToNat (l : List Char) : Nat := l.foldl (fun a c => a * 10 + charDigit c) 0

/-- Exponent part of a float literal (after the `e`/`E`). -/
def parseExp : List Char → Option Int
  | [] => none
  | '+' :: r =>
    if r ≠ [] ∧ r.all isDigitChar then some (digitsToNat r : Int) else none
  | '-' :: r =>
    if r ≠ [] ∧ r.all isDigitChar then some (-(digitsToNat r : Int)) else none
  | r =>
    if r.all isDigitChar then some (digitsToNat r : Int) else none

def applyExp (q : ℚ) (e : Int) : ℚ := q * (10 : ℚ) ^ e

/-- Unsigned decimal float literal: digits, optional fractional part,
optional exponent (infinities and nan literals are treated as
unparseable, i.e. they map to the missing marker, matching the pandas
missing-value semantics for nan). -/
def parseMantissa (l : List Char) : Option ℚ :=
  let ip := l.takeWhile isDigitChar
  let rest := l.dropWhile isDigitChar
  match rest with
  | [] => if ip = [] then none else some (digitsToNat ip : ℚ)
  | '.' :: r2 =>
    let fp := r2.takeWhile isDigitChar
    let r3 := r2.dropWhile isDigitChar
    if ip = [] ∧ fp = [] then none
    else
      let v : ℚ := (digitsToNat ip : ℚ) + (digitsToNat fp : ℚ) / ((10 : ℚ) ^ fp.length)
      match r3 with
      | [] => some v
      | e :: r4 => if e = 'e' ∨ e = 'E' then (parseExp r4).map (applyExp v) else none
  | e :: r4 =>
    if (e = 'e' ∨ e = 'E') ∧ ip ≠ [] then
      (parseExp r4).map (applyExp (digitsToNat ip : ℚ))
    else none

/-- The numeric parser behind `pd.to_numeric(s, errors="coerce")`:
optional sign followed by a decimal float literal; anything else is
unparseable and becomes the missing marker. -/
def parse_numeric : List Char → Option ℚ
  | '+' :: r => parseMantissa r
  | '-' :: r => (parseMantissa r).map Neg.neg
  | r => parseMantissa r

/-- The string rewriting done by `_coerce_numeric`: replace NBSP by a
space, delete all spaces, then turn a decimal comma into a point. -/
def coerce_transform (l : List Char) : List Char :=
  ((l.map (fun c => if c = '\u00A0' then ' ' else c)).filter
      (fun c => !(c = ' '))).map
    (fun c => if c = ',' then '.' else c)

/-! ## Cells and data frames -/

/-- One cell of a data frame: the missing marker (NaN/NaT/None), a text
value, a float (modelled as a rational) or a datetime (year, month,
day). -/
inductive Cell where
  | null
  | str (s : String)
  | num (q : ℚ)
  | date (y : Int) (m : Nat) (d : Nat)
deriving DecidableEq

/-- Two-digit zero-padded decimal. -/
def pad2 (n : Nat) : List Char := if n < 10 then '0' :: natRepr n else natRepr n

/-- Python `str()` of a cell, as produced by `.astype(str)`: NaN prints
as "nan"; floats print via their decimal value (integral floats keep a
trailing ".0" in Python, which no claim depends on); datetimes print in
ISO form. -/
def py_str_cell : Cell → List Char
  | .null => "nan".toList
  | .str s => s.toList
  | .num q => if q.den = 1 then intRepr q.num else intRepr q.num ++ '/' :: natRepr q.den
  | .date y m d => intRepr y ++ '-' :: pad2 m ++ '-' :: pad2 d

/-- Numeric coercion of one cell: text is rewritten by
`coerce_transform` and parsed; unparseable text becomes the missing
marker; floats stay floats; missing stays missing; datetimes do not
parse as numbers. -/
def coerce_cell : Cell → Cell
  | .str s =>
    match parse_numeric (coerce_transform s.toList) with
    | some q => .num q
    | none => .null
  | .num q => .num q
  | .date _ _ _ => .null
  | .null => .null

/-- Embedding of `_coerce_numeric` (utils/io.py and utils/prep.py): the
series version maps the cell coercion over the column. -/
def _coerce_numeric (cells : List Cell) : List Cell := cells.map coerce_cell

/-- C7: for every input series, `_coerce_numeric` removes non-breaking
and plain spaces, replaces decimal commas with points and parses each
value to floating point; values that fail to parse become the missing
marker and the function is total (never an error): the output has the
same length, every output cell is a float or missing, the
NBSP-thousands decimal-comma value "1 234,5" yields 1234.5, and
non-numeric text yields missing. -/
theorem claim_C7_coerce_numeric :
    (∀ cells : List Cell, (_coerce_numeric cells).length = cells.length) ∧
    (∀ cells : List Cell, ∀ c ∈ _coerce_numeric cells,
      c = Cell.null ∨ ∃ q : ℚ, c = Cell.num q) ∧
    _coerce_numeric [Cell.str "1\u00A0234,5"] = [Cell.num (2469 / 2)] ∧
    _coerce_numeric [Cell.str "abc"] = [Cell.null] := by
  refine ⟨?_, ?_, ?_, ?_⟩
  · intro cells
    simp [_coerce_numeric]
  · intro cells c hc
    obtain ⟨d, _, rfl⟩ := List.mem_map.mp hc
    cases d with
    | null => left; rfl
    | str s =>
      simp only [coerce_cell]
      cases parse_numeric (coerce_transform s.toList) with
      | none => left; rfl
      | some q => right; exact ⟨q, rfl⟩
    | num q => right; exact ⟨q, rfl⟩
    | date y m d => left; rfl
  · have ht : coerce_transform ("1\u00A0234,5".toList) = "1234.5".toList := by decide
    have hp : parse_numeric ("1234.5".toList) = some (1234 + 5 / 10 ^ 1 : ℚ) := rfl
    have hval : (1234 + 5 / 10 ^ 1 : ℚ) = 2469 / 2 := by norm_num
    simp only [_coerce_numeric, List.map_cons, List.map_nil, coerce_cell, ht, hp, hval]
  · have ht : coerce_transform ("abc".toList) = "abc".toList := by decide
    have hp : parse_numeric ("abc".toList) = none := rfl
    simp only [_coerce_numeric, List.map_cons, List.map_nil, coerce_cell, ht, hp]

/-- A pandas data frame: named columns and a list of rows, each row a
list of cells aligned with the column list. -/
structure DF where
  cols : List String
  rows : List (List Cell)
deriving DecidableEq

instance : Inhabited DF := ⟨⟨[], []⟩⟩

def hasCol (df : DF) (c : String) : Bool := decide (c ∈ df.cols)

/-- Cell of a row at a named column (the missing marker when the column
does not exist or the row is short). -/
def cellAt (df : DF) (r : List Cell) (c : String) : Cell :=
  match df.cols.indexOf? c with
  | some i => r.getD i Cell.null
  | none => Cell.null

/-- `df[c] = f(df[c])` for an existing column `c` (identity otherwise). -/
def mapCol (df : DF) (c : String) (f : Cell → Cell) : DF :=
  match df.cols.indexOf? c with
  | some i => { df with rows := df.rows.map (fun r => r.set i (f (r.getD i Cell.null))) }
  | none => df

/-- `df[c] = vals`: overwrite an existing column or append a new one. -/
def setCol (df : DF) (c : String) (vals : List Cell) : DF :=
  match df.cols.indexOf? c with
  | some i => { df with rows := df.rows.zipWith (fun r v => r.set i v) vals }
  | none => { cols := df.cols ++ [c], rows := df.rows.zipWith (fun r v => r ++ [v]) vals }

/-- Boolean-mask row filtering `df[mask]`. -/
def filterRows (df : DF) (p : List Cell → Bool) : DF :=
  { df with rows := df.rows.filter p }

/-- `df[cols]` column projection. -/
def selectCols (df : DF) (cs : List String) : DF :=
  { cols := cs, rows := df.rows.map (fun r => cs.map (cellAt df r)) }

/-! ## Ordering of cells (used by sort_values, ascending, NaN last) -/

/-- Lexicographic comparison of character lists by code point. -/
def strLe : List Char → List Char → Bool
  | [], _ => true
  | _ :: _, [] => false
  | a :: as, b :: bs =>
    if a.toNat < b.toNat then true
    else if b.toNat < a.toNat then false
    else strLe as bs

/-- Date comparison, lexicographic on (year, month, day). -/
def dateLe (y1 : Int) (m1 d1 : Nat) (y2 : Int) (m2 d2 : Nat) : Bool :=
  if y1 = y2 then (if m1 = m2 then decide (d1 ≤ d2) else decide (m1 < m2))
  else decide (y1 < y2)

/-- Sort order on cells: the missing marker sorts last (na_position =
"last" with ascending sort); otherwise values compare within their kind
(pandas raises on mixed-kind columns, which the model resolves by a
fixed kind order: floats, dates, strings). -/
def cellLe (a b : Cell) : Bool :=
  match a, b with
  | _, .null => true
  | .null, _ => false
  | .num p, .num q => decide (p ≤ q)
  | .num _, .date _ _ _ => true
  | .num _, .str _ => true
  | .date _ _ _, .num _ => false
  | .date y1 m1 d1, .date y2 m2 d2 => dateLe y1 m1 d1 y2 m2 d2
  | .date _ _ _, .str _ => true
  | .str _, .num _ => false
  | .str _, .date _ _ _ => false
  | .str s, .str t => strLe s.toList t.toList

theorem strLe_total : ∀ a b : List Char, strLe a b = true ∨ strLe b a = true := by
  intro a
  induction a with
  | nil => intro b; left; rfl
  | cons x xs ih =>
    intro b
    cases b with
    | nil => right; rfl
    | cons y ys =>
      simp only [strLe]
      by_cases h1 : x.toNat < y.toNat
      · left; rw [if_pos h1]
      · by_cases h2 : y.toNat < x.toNat
        · right; rw [if_pos h2]
        · simp only [if_neg h1, if_neg h2]
          exact ih ys

theorem strLe_trans : ∀ a b c : List Char,
    strLe a b = true → strLe b c = true → strLe a c = true := by
  intro a
  induction a with
  | nil => intro b c _ _; rfl
  | cons x xs ih =>
    intro b c hab hbc
    cases b with
    | nil => simp [strLe] at hab
    | cons y ys =>
      cases c with
      | nil => simp [strLe] at hbc
      | cons z zs =>
        simp only [strLe] at hab hbc ⊢
        by_cases h3 : x.toNat < z.toNat
        · rw [if_pos h3]
        · rw [if_neg h3]
          by_cases h1 : x.toNat < y.toNat
          · by_cases h2 : y.toNat < z.toNat
            · omega
            · by_cases h2' : z.toNat < y.toNat
              · rw [if_neg h2, if_pos h2'] at hbc; exact absurd hbc (by simp)
              · omega
          · by_cases h1' : y.toNat < x.toNat
            · rw [if_pos h1'] at hab
              rw [if_neg h1] at hab
              exact absurd hab (by simp)
            · rw [if_neg h1, if_neg h1'] at hab
              by_cases h2 : y.toNat < z.toNat
              · omega
              · by_cases h2' : z.toNat < y.toNat
                · rw [if_neg h2, if_pos h2'] at hbc; exact absurd hbc (by simp)
                · rw [if_neg h2, if_neg h2'] at hbc
                  rw [if_neg (by omega : ¬ z.toNat < x.toNat)]
                  exact ih ys zs hab hbc

theorem dateLe_total (y1 : Int) (m1 d1 : Nat) (y2 : Int) (m2 d2 : Nat) :
    dateLe y1 m1 d1 y2 m2 d2 = true ∨ dateLe y2 m2 d2 y1 m1 d1 = true := by
  simp only [dateLe]
  split_ifs <;> simp <;> omega

theorem dateLe_trans {y1 : Int} {m1 d1 : Nat} {y2 : Int} {m2 d2 : Nat} {y3 : Int}
    {m3 d3 : Nat} (h12 : dateLe y1 m1 d1 y2 m2 d2 = true)
    (h23 : dateLe y2 m2 d2 y3 m3 d3 = true) : dateLe y1 m1 d1 y3 m3 d3 = true := by
  simp only [dateLe] at h12 h23 ⊢
  split_ifs at h12 h23 ⊢ <;> simp_all <;> omega

theorem cellLe_total (a b : Cell) : cellLe a b = true ∨ cellLe b a = true := by
  cases a <;> cases b <;>
    first
      | (left; rfl)
      | (right; rfl)
      | (simp only [cellLe, decide_eq_true_eq]; exact le_total _ _)
      | (simp only [cellLe]; exact dateLe_total _ _ _ _ _ _)
      | (simp only [cellLe]; exact strLe_total _ _)

theorem cellLe_trans {a b c : Cell} (hab : cellLe a b = true) (hbc : cellLe b c = true) :
    cellLe a c = true := by
  cases a <;> cases b <;> cases c <;>
    first
      | rfl
      | (exact Bool.noConfusion hab)
      | (exact Bool.noConfusion hbc)
      | (simp only [cellLe, decide_eq_true_eq] at hab hbc ⊢; exact le_trans hab hbc)
      | (simp only [cellLe] at hab hbc ⊢; exact dateLe_trans hab hbc)
      | (simp only [cellLe] at hab hbc ⊢; exact strLe_trans _ _ _ hab hbc)

/-! ## sort_values, drop_duplicates, quantile -/

/-- Row comparison by the cell in column `c` (ascending, missing last). -/
def rowLe (df : DF) (c : String) (r s : List Cell) : Prop :=
  cellLe (cellAt df r c) (cellAt df s c) = true

instance (df : DF) (c : String) : DecidableRel (rowLe df c) := fun r s => by
  unfold rowLe; infer_instance

/-- `df.sort_values(c, na_position="last")`: a KeyError when the column
is absent, otherwise the rows sorted ascending by the cell in column
`c`, missing values last (pandas does not specify the order of ties;
the model uses a stable sort). -/
def sort_values (df : DF) (c : String) : Except String DF :=
  if hasCol df c then
    .ok { df with rows := List.insertionSort (rowLe df c) df.rows }
  else .error ("KeyError: " ++ c)

/-- Keep the first row for each key, in order (the engine behind
`drop_duplicates(keep="first")`). -/
def dedupKeep (key : List Cell → List Cell) :
    List (List Cell) → List (List Cell) → List (List Cell)
  | [], _ => []
  | r :: rs, seen =>
    if key r ∈ seen then dedupKeep key rs seen
    else r :: dedupKeep key rs (key r :: seen)

/-- `df.drop_duplicates(subset=..., keep="first")`; `none` means the
whole row is the key. -/
def drop_duplicates (df : DF) (subset : Option (List String)) : DF :=
  let key : List Cell → List Cell :=
    match subset with
    | none => fun r => r
    | some ks => fun r => ks.map (cellAt df r)
  { df with rows := dedupKeep key df.rows [] }

def cellNum : Cell → Option ℚ
  | .num q => some q
  | _ => none

/-- Interpolated value of a sorted nonempty list at virtual index
h = q·(n−1): v⌊h⌋ + (h − ⌊h⌋)·(v⌊h⌋₊₁ − v⌊h⌋). -/
def quantileOfSorted (s : List ℚ) (q : ℚ) : ℚ :=
  s.getD (⌊q * ((s.length : ℚ) - 1)⌋).toNat 0 +
    (q * ((s.length : ℚ) - 1) - ((⌊q * ((s.length : ℚ) - 1)⌋).toNat : ℚ)) *
      (s.getD (min ((⌊q * ((s.length : ℚ) - 1)⌋).toNat + 1) (s.length - 1)) 0 -
        s.getD (⌊q * ((s.length : ℚ) - 1)⌋).toNat 0)

/-- `Series.quantile(q)` with linear interpolation: NaN entries are
dropped before the call, an empty series gives NaN (`none`), otherwise
the sorted values are interpolated by `quantileOfSorted`. -/
def quantileVals (l : List ℚ) (q : ℚ) : Option ℚ :=
  if (List.insertionSort (· ≤ ·) l).isEmpty then none
  else some (quantileOfSorted (List.insertionSort (· ≤ ·) l) q)

def getCol (df : DF) (c : String) : List Cell := df.rows.map (fun r => cellAt df r c)

def quantileCol (cells : List Cell) (q : ℚ) : Option ℚ :=
  quantileVals (cells.filterMap cellNum) q

/-! ## The cleaning pipeline (make_df_clean, utils/prep.py) -/

/-- Stage 1: defensive numeric coercion of the three numeric fields,
each skipped when its column is absent. -/
def stage_coerce (df : DF) : DF :=
  ["valeur_fonciere", "surface_reelle_bati", "nombre_pieces_principales"].foldl
    (fun d c => mapCol d c coerce_cell) df

/-- The deduplication keys: whichever of id_mutation and
numero_disposition exist in the frame. -/
def dedup_keys (df : DF) : List String :=
  ["id_mutation", "numero_disposition"].filter (fun k => hasCol df k)

/-- Stage 2: if at least one key column exists, sort by date_mutation
(missing last) and drop rows with a duplicate key, keeping the first;
otherwise drop full-row duplicates.  The sort raises a KeyError when
date_mutation is absent. -/
def stage_dedup (df : DF) : Except String DF :=
  if (dedup_keys df).isEmpty then .ok (drop_duplicates df none)
  else do
    let ds ← sort_values df "date_mutation"
    .ok (drop_duplicates ds (some (dedup_keys df)))

def pyStrip (l : List Char) : List Char := stripEnds pyIsSpace l

def pyLower (l : List Char) : List Char := l.map pyLowerChar

/-- Stage 3a: keep rows whose nature_mutation, as text, stripped and
lowercased, equals "vente" (skipped without the column). -/
def stage_nature (df : DF) : DF :=
  if hasCol df "nature_mutation" then
    filterRows df (fun r =>
      decide (pyLower (pyStrip (py_str_cell (cellAt df r "nature_mutation"))) = "vente".toList))
  else df

/-- Stage 3b: keep rows whose type_local is Appartement or Maison
(`isin`; skipped without the column). -/
def stage_type (df : DF) : DF :=
  if hasCol df "type_local" then
    filterRows df (fun r =>
      decide (cellAt df r "type_local" = Cell.str "Appartement" ∨
        cellAt df r "type_local" = Cell.str "Maison"))
  else df

def needed_cols (df : DF) : List String :=
  ["valeur_fonciere", "surface_reelle_bati", "date_mutation"].filter (fun c => hasCol df c)

/-- Stage 4: drop rows missing any of the essential fields that exist. -/
def stage_dropna (df : DF) : DF :=
  if (needed_cols df).isEmpty then df
  else filterRows df (fun r => (needed_cols df).all (fun c => !decide (cellAt df r c = Cell.null)))

/-- First run of five consecutive digits in a string (the regex
`(\d{5})` of `.str.extract`). -/
def extract5 : List Char → Option (List Char)
  | [] => none
  | c :: cs =>
    if (c :: cs).length ≥ 5 ∧ ((c :: cs).take 5).all isDigitChar then some ((c :: cs).take 5)
    else extract5 cs

/-- Stage 5: normalize code_postal to its first five-digit run (missing
when there is none), keep the rows starting with "75", and derive the
arrondissement from the last two digits (those are guaranteed digits by
the extraction, so the `astype("Int16")` cannot fail there). -/
def cp_extract_cell (cell : Cell) : Cell :=
  match extract5 (py_str_cell cell) with
  | some ds => Cell.str (String.mk ds)
  | none => Cell.null

def stage_cp_filter (d1 : DF) : DF :=
  filterRows d1 (fun r =>
    match cellAt d1 r "code_postal" with
    | Cell.str s => decide (s.toList.take 2 = "75".toList)
    | _ => false)

def stage_cp_arr (d2 : DF) : DF :=
  setCol d2 "arrondissement" (d2.rows.map (fun r =>
    match cellAt d2 r "code_postal" with
    | Cell.str s => Cell.num (digitsToNat (s.toList.drop (s.toList.length - 2)) : ℚ)
    | _ => Cell.null))

def stage_cp (df : DF) : DF :=
  if hasCol df "code_postal" then
    stage_cp_arr (stage_cp_filter (mapCol df "code_postal" cp_extract_cell))
  else df

/-- Float division of two cells.  In pandas a zero denominator yields an
infinite float; every such row has built area < 9 and is removed by the
area stage before its price is ever compared or aggregated, so the
model maps it to missing. -/
def cellDiv : Cell → Cell → Cell
  | .num a, .num b => if b = 0 then .null else .num (a / b)
  | _, _ => .null

/-- Stage 6: prix_m2 = valeur_fonciere / surface_reelle_bati, when both
columns exist. -/
def stage_prix (df : DF) : DF :=
  if hasCol df "valeur_fonciere" ∧ hasCol df "surface_reelle_bati" then
    setCol df "prix_m2" (df.rows.map (fun r =>
      cellDiv (cellAt df r "valeur_fonciere") (cellAt df r "surface_reelle_bati")))
  else df

def cell_ge_const (c : Cell) (b : ℚ) : Bool :=
  match c with
  | .num x => decide (b ≤ x)
  | _ => false

def cell_le_const (c : Cell) (b : ℚ) : Bool :=
  match c with
  | .num x => decide (x ≤ b)
  | _ => false

/-- Stage 7: keep areas ≥ 9, then cut above the 99.9th percentile of
the remaining areas when that percentile is defined. -/
def stage_area_cut (d1 : DF) : DF :=
  match quantileCol (getCol d1 "surface_reelle_bati") (mkRat 999 1000) with
  | some sq => filterRows d1 (fun r => cell_le_const (cellAt d1 r "surface_reelle_bati") sq)
  | none => d1

def stage_area (df : DF) : DF :=
  if hasCol df "surface_reelle_bati" then
    stage_area_cut (filterRows df (fun r => cell_ge_const (cellAt df r "surface_reelle_bati") 9))
  else df

/-- Lower bound of the price-per-area acceptance band:
max(1000, 0.1st percentile), or the hard floor 1000 alone when the
percentile is NaN. -/
def prix_low (df : DF) : ℚ :=
  match quantileCol (getCol df "prix_m2") (mkRat 1 1000) with
  | some p => max 1000 p
  | none => 1000

/-- Upper bound of the price-per-area acceptance band:
min(50000, 99.9th percentile), or the hard ceiling 50000 alone when the
percentile is NaN. -/
def prix_high (df : DF) : ℚ :=
  match quantileCol (getCol df "prix_m2") (mkRat 999 1000) with
  | some p => min 50000 p
  | none => 50000

/-- Stage 8: keep rows whose prix_m2 lies in [prix_low, prix_high]. -/
def stage_prix_censor (df : DF) : DF :=
  if hasCol df "prix_m2" then
    filterRows df (fun r =>
      cell_ge_const (cellAt df r "prix_m2") (prix_low df) &&
      cell_le_const (cellAt df r "prix_m2") (prix_high df))
  else df

def dt_year (cells : List Cell) : Except String (List Cell) :=
  cells.mapM (fun c =>
    match c with
    | Cell.date y _ _ => .ok (Cell.num (y : ℚ))
    | Cell.null => .ok Cell.null
    | _ => .error "AttributeError: dt accessor on a non-datetime column")

def quarter_str (y : Int) (m : Nat) : List Char := intRepr y ++ 'Q' :: natRepr ((m + 2) / 3)

def dt_quarter (cells : List Cell) : Except String (List Cell) :=
  cells.mapM (fun c =>
    match c with
    | Cell.date y m _ => .ok (Cell.str (String.mk (quarter_str y m)))
    | Cell.null => .ok (Cell.str "NaT")
    | _ => .error "AttributeError: dt accessor on a non-datetime column")

/-- Stage 9: derive the year and the calendar-quarter string from
date_mutation (skipped without the column). -/
def stage_periods_trim (d1 : DF) : Except String DF := do
  let qs ← dt_quarter (getCol d1 "date_mutation")
  .ok (setCol d1 "trimestre" qs)

def stage_periods (df : DF) : Except String DF :=
  if hasCol df "date_mutation" then do
    let ys ← dt_year (getCol df "date_mutation")
    stage_periods_trim (setCol df "annee" ys)
  else .ok df

/-- numpy round-half-to-even, used by `Series.round()`. -/
def roundHalfEven (q : ℚ) : Int :=
  let f := ⌊q⌋
  let r := q - (f : ℚ)
  if r < mkRat 1 2 then f
  else if mkRat 1 2 < r then f + 1
  else if Even f then f else f + 1

def round_cell : Cell → Cell
  | .num q => .num ((roundHalfEven q : Int) : ℚ)
  | c => c

/-- `pd.cut` with bins [0,1,2,3,4,100], right=true, include_lowest. -/
def cut_pieces : Cell → Cell
  | .num q =>
    if 0 ≤ q ∧ q ≤ 1 then .str "T1"
    else if 1 < q ∧ q ≤ 2 then .str "T2"
    else if 2 < q ∧ q ≤ 3 then .str "T3"
    else if 3 < q ∧ q ≤ 4 then .str "T4"
    else if 4 < q ∧ q ≤ 100 then .str "T5+"
    else .null
  | _ => .null

/-- Stage 10a: round the room count and bucket it. -/
def stage_pieces_classes (d1 : DF) : DF :=
  setCol d1 "classe_pieces" ((getCol d1 "nombre_pieces_principales").map cut_pieces)

def stage_pieces (df : DF) : DF :=
  if hasCol df "nombre_pieces_principales" then
    stage_pieces_classes (mapCol df "nombre_pieces_principales" round_cell)
  else df

/-- `pd.cut` with bins [0,25,40,60,80,120,10000], right=false. -/
def cut_surface : Cell → Cell
  | .num q =>
    if 0 ≤ q ∧ q < 25 then .str "<25"
    else if 25 ≤ q ∧ q < 40 then .str "25–40"
    else if 40 ≤ q ∧ q < 60 then .str "40–60"
    else if 60 ≤ q ∧ q < 80 then .str "60–80"
    else if 80 ≤ q ∧ q < 120 then .str "80–120"
    else if 120 ≤ q ∧ q < 10000 then .str "120+"
    else .null
  | _ => .null

/-- Stage 10b: bucket the built area. -/
def stage_surface_class (df : DF) : DF :=
  if hasCol df "surface_reelle_bati" then
    setCol df "classe_surface_m2" ((getCol df "surface_reelle_bati").map cut_surface)
  else df

/-- The `astype("category")` of type_local changes the dtype only, not
any value. -/
def stage_types (df : DF) : DF := df

def final_col_list : List String :=
  ["id_mutation", "date_mutation", "annee", "trimestre", "nature_mutation", "type_local",
   "valeur_fonciere", "surface_reelle_bati", "prix_m2", "nombre_pieces_principales",
   "classe_pieces", "classe_surface_m2", "code_postal", "arrondissement", "nom_commune",
   "adresse_nom_voie", "longitude", "latitude"]

/-- Stage 11: project to the final columns that exist, then sort by
date_mutation (missing last) and reset the index.  The sort raises a
KeyError when date_mutation is absent. -/
def stage_final (df : DF) : Except String DF :=
  sort_values (selectCols df (final_col_list.filter (fun c => hasCol df c))) "date_mutation"

/-- The ordered stages of make_df_clean (utils/prep.py). -/
def stages : List (DF → Except String DF) :=
  [fun df => .ok (stage_coerce df),
   stage_dedup,
   fun df => .ok (stage_nature df),
   fun df => .ok (stage_type df),
   fun df => .ok (stage_dropna df),
   fun df => .ok (stage_cp df),
   fun df => .ok (stage_prix df),
   fun df => .ok (stage_area df),
   fun df => .ok (stage_prix_censor df),
   stage_periods,
   fun df => .ok (stage_pieces df),
   fun df => .ok (stage_surface_class df),
   fun df => .ok (stage_types df),
   stage_final]

/-- Embedding of `make_df_clean` (utils/prep.py): the pure cleaning
pipeline, run stage by stage; a pandas exception is an `.error`. -/
def make_df_clean (df_raw : DF) : Except String DF :=
  stages.foldlM (fun d g => g d) df_raw

/-! ## Column-set facts about the stages -/

theorem hasCol_false_iff {df : DF} {c : String} :
    hasCol df c = false ↔ c ∉ df.cols := by
  simp [hasCol]

theorem mapCol_cols (df : DF) (c : String) (f : Cell → Cell) :
    (mapCol df c f).cols = df.cols := by
  unfold mapCol
  cases df.cols.indexOf? c <;> rfl

theorem filterRows_cols (df : DF) (p : List Cell → Bool) :
    (filterRows df p).cols = df.cols := rfl

theorem drop_duplicates_cols (df : DF) (subset : Option (List String)) :
    (drop_duplicates df subset).cols = df.cols := rfl

theorem setCol_hasCol_ne {df : DF} {c c0 : String} (vals : List Cell) (h : c0 ≠ c) :
    hasCol (setCol df c vals) c0 = hasCol df c0 := by
  unfold setCol
  cases df.cols.indexOf? c with
  | some i => rfl
  | none =>
    simp only [hasCol, List.mem_append, List.mem_singleton]
    by_cases hm : c0 ∈ df.cols
    · simp [hm]
    · simp [hm, h]

theorem stage_coerce_cols (df : DF) : (stage_coerce df).cols = df.cols := by
  simp only [stage_coerce, List.foldl_cons, List.foldl_nil, mapCol_cols]

theorem stage_nature_hasCol (df : DF) (c : String) :
    hasCol (stage_nature df) c = hasCol df c := by
  unfold stage_nature
  split_ifs <;> rfl

theorem stage_type_hasCol (df : DF) (c : String) :
    hasCol (stage_type df) c = hasCol df c := by
  unfold stage_type
  split_ifs <;> rfl

theorem stage_dropna_hasCol (df : DF) (c : String) :
    hasCol (stage_dropna df) c = hasCol df c := by
  unfold stage_dropna
  split_ifs <;> rfl

theorem stage_cp_hasCol (df : DF) (c : String) (h : c ≠ "arrondissement") :
    hasCol (stage_cp df) c = hasCol df c := by
  unfold stage_cp stage_cp_arr stage_cp_filter
  split_ifs with hc
  · rw [setCol_hasCol_ne _ h]
    simp only [hasCol, filterRows, mapCol_cols]
  · rfl

theorem stage_prix_hasCol (df : DF) (c : String) (h : c ≠ "prix_m2") :
    hasCol (stage_prix df) c = hasCol df c := by
  unfold stage_prix
  split_ifs with hc
  · rw [setCol_hasCol_ne _ h]
  · rfl

theorem stage_area_cut_hasCol (d1 : DF) (c : String) :
    hasCol (stage_area_cut d1) c = hasCol d1 c := by
  unfold stage_area_cut
  cases quantileCol (getCol d1 "surface_reelle_bati") (mkRat 999 1000) <;> rfl

theorem stage_area_hasCol (df : DF) (c : String) :
    hasCol (stage_area df) c = hasCol df c := by
  unfold stage_area
  split_ifs with hc
  · rw [stage_area_cut_hasCol]; rfl
  · rfl

theorem stage_prix_censor_hasCol (df : DF) (c : String) :
    hasCol (stage_prix_censor df) c = hasCol df c := by
  unfold stage_prix_censor
  split_ifs <;> rfl

theorem stage_pieces_hasCol (df : DF) (c : String) (h : c ≠ "classe_pieces") :
    hasCol (stage_pieces df) c = hasCol df c := by
  unfold stage_pieces stage_pieces_classes
  split_ifs with hc
  · rw [setCol_hasCol_ne _ h]
    simp only [hasCol, mapCol_cols]
  · rfl

theorem stage_surface_class_hasCol (df : DF) (c : String) (h : c ≠ "classe_surface_m2") :
    hasCol (stage_surface_class df) c = hasCol df c := by
  unfold stage_surface_class
  split_ifs with hc
  · rw [setCol_hasCol_ne _ h]
  · rfl

/-! ## C1: behaviour of the pipeline when columns are absent -/

theorem except_bind_ok {α β : Type} (a : α) (f : α → Except String β) :
    (Except.ok a >>= f) = f a := rfl

theorem except_bind_error {α β : Type} (e : String) (f : α → Except String β) :
    ((Except.error e : Except String α) >>= f) = Except.error e := rfl

theorem stage_periods_skip {d : DF} (hd : hasCol d "date_mutation" = false) :
    stage_periods d = Except.ok d := by
  unfold stage_periods
  rw [if_neg (by simp [hd])]

theorem stage_final_error {d : DF} (hd : hasCol d "date_mutation" = false) :
    stage_final d = Except.error ("KeyError: " ++ "date_mutation") := by
  unfold stage_final sort_values
  rw [if_neg]
  intro hcon
  simp only [hasCol, selectCols, decide_eq_true_eq] at hcon
  have h2 := (List.mem_filter.mp hcon).2
  have hd' : decide ("date_mutation" ∈ d.cols) = false := hd
  rw [hd'] at h2
  cases h2

theorem stage_dedup_error {d : DF} (hd : hasCol d "date_mutation" = false)
    (hk : ¬((dedup_keys d).isEmpty = true)) :
    stage_dedup d = Except.error ("KeyError: " ++ "date_mutation") := by
  unfold stage_dedup sort_values
  rw [if_neg hk, if_neg (by simp [hd])]
  rfl

theorem make_df_clean_error_of_no_date (df : DF)
    (h : hasCol df "date_mutation" = false) :
    make_df_clean df = Except.error ("KeyError: " ++ "date_mutation") := by
  have hd1 : hasCol (stage_coerce df) "date_mutation" = false := by
    unfold hasCol
    rw [stage_coerce_cols]
    exact h
  by_cases hk : (dedup_keys (stage_coerce df)).isEmpty
  · have hded : stage_dedup (stage_coerce df) =
        Except.ok (drop_duplicates (stage_coerce df) none) := by
      unfold stage_dedup
      rw [if_pos hk]
    have hd2 : hasCol (drop_duplicates (stage_coerce df) none) "date_mutation" = false := hd1
    have h9 : hasCol
        (stage_prix_censor (stage_area (stage_prix (stage_cp (stage_dropna (stage_type
          (stage_nature (drop_duplicates (stage_coerce df) none))))))))
        "date_mutation" = false := by
      rw [stage_prix_censor_hasCol, stage_area_hasCol, stage_prix_hasCol _ _ (by decide),
        stage_cp_hasCol _ _ (by decide), stage_dropna_hasCol, stage_type_hasCol,
        stage_nature_hasCol]
      exact hd2
    have h12 : hasCol
        (stage_types (stage_surface_class (stage_pieces
          (stage_prix_censor (stage_area (stage_prix (stage_cp (stage_dropna (stage_type
            (stage_nature (drop_duplicates (stage_coerce df) none)))))))))))
        "date_mutation" = false := by
      unfold stage_types
      rw [stage_surface_class_hasCol _ _ (by decide), stage_pieces_hasCol _ _ (by decide)]
      exact h9
    simp only [make_df_clean, stages, List.foldlM, except_bind_ok, hded,
      stage_periods_skip h9, stage_final_error h12, except_bind_error]
  · have hded := stage_dedup_error hd1 hk
    simp only [make_df_clean, stages, List.foldlM, except_bind_ok, hded, except_bind_error]

theorem mapCol_absent {df : DF} {c : String} {f : Cell → Cell}
    (h : hasCol df c = false) : mapCol df c f = df := by
  have hmem : c ∉ df.cols := by simpa [hasCol] using h
  have hn : df.cols.indexOf? c = none :=
    List.indexOf?_eq_none_iff.mpr (fun x hx hbeq => hmem (eq_of_beq hbeq ▸ hx))
  unfold mapCol
  rw [hn]

/-- C1 counterexample: on a raw table with an id_mutation column but no
date_mutation column, make_df_clean raises a KeyError from the
unguarded `sort_values("date_mutation")` instead of succeeding. -/
theorem claim_C1_counterexample :
    make_df_clean ⟨["id_mutation"], [[Cell.str "A"]]⟩ =
      Except.error "KeyError: date_mutation" ∧
    ∀ d : DF, make_df_clean ⟨["id_mutation"], [[Cell.str "A"]]⟩ ≠ Except.ok d := by
  refine ⟨rfl, ?_⟩
  intro d hcon
  rw [(rfl : make_df_clean ⟨["id_mutation"], [[Cell.str "A"]]⟩ =
    Except.error "KeyError: date_mutation")] at hcon
  cases hcon

/-- C1 (amended): every guarded stage of make_df_clean is a no-op when
its required input column is absent (coercion, scope filters,
completeness filter, postal-code handling, price-per-area derivation
and censoring, temporal features, bucketing), but cleaning is not
error-free without a date column: both the deduplication sort (when an
id key column exists) and the final sort reference date_mutation
unconditionally, so make_df_clean raises a KeyError on every raw table
lacking date_mutation — in particular on one that has id_mutation but
no date_mutation. -/
theorem claim_C1_amended :
    (∀ df : DF,
      hasCol df "valeur_fonciere" = false → hasCol df "surface_reelle_bati" = false →
      hasCol df "nombre_pieces_principales" = false → stage_coerce df = df) ∧
    (∀ df : DF, hasCol df "nature_mutation" = false → stage_nature df = df) ∧
    (∀ df : DF, hasCol df "type_local" = false → stage_type df = df) ∧
    (∀ df : DF, needed_cols df = [] → stage_dropna df = df) ∧
    (∀ df : DF, hasCol df "code_postal" = false → stage_cp df = df) ∧
    (∀ df : DF,
      hasCol df "valeur_fonciere" = false ∨ hasCol df "surface_reelle_bati" = false →
      stage_prix df = df) ∧
    (∀ df : DF, hasCol df "surface_reelle_bati" = false →
      stage_area df = df ∧ stage_surface_class df = df) ∧
    (∀ df : DF, hasCol df "prix_m2" = false → stage_prix_censor df = df) ∧
    (∀ df : DF, hasCol df "date_mutation" = false → stage_periods df = Except.ok df) ∧
    (∀ df : DF, hasCol df "nombre_pieces_principales" = false → stage_pieces df = df) ∧
    (∀ df : DF, hasCol df "date_mutation" = false →
      make_df_clean df = Except.error ("KeyError: " ++ "date_mutation")) := by
  refine ⟨?_, ?_, ?_, ?_, ?_, ?_, ?_, ?_, ?_, ?_, ?_⟩
  · intro df h1 h2 h3
    simp only [stage_coerce, List.foldl_cons, List.foldl_nil]
    rw [mapCol_absent h1, mapCol_absent h2, mapCol_absent h3]
  · intro df h
    unfold stage_nature
    rw [if_neg (by simp [h])]
  · intro df h
    unfold stage_type
    rw [if_neg (by simp [h])]
  · intro df h
    unfold stage_dropna
    rw [if_pos (by rw [h]; rfl)]
  · intro df h
    unfold stage_cp
    rw [if_neg (by simp [h])]
  · intro df h
    unfold stage_prix
    rcases h with h | h <;> rw [if_neg (by simp [h])]
  · intro df h
    constructor
    · unfold stage_area
      rw [if_neg (by simp [h])]
    · unfold stage_surface_class
      rw [if_neg (by simp [h])]
  · intro df h
    unfold stage_prix_censor
    rw [if_neg (by simp [h])]
  · intro df h
    exact stage_periods_skip h
  · intro df h
    unfold stage_pieces
    rw [if_neg (by simp [h])]
  · intro df h
    exact make_df_clean_error_of_no_date df h

theorem claim_C1_amended_witness :
    stage_nature ⟨["id_mutation"], [[Cell.str "A"]]⟩ = ⟨["id_mutation"], [[Cell.str "A"]]⟩ ∧
    make_df_clean ⟨["id_mutation"], [[Cell.str "A"]]⟩ =
      Except.error ("KeyError: " ++ "date_mutation") :=
  ⟨claim_C1_amended.2.1 _ (by decide),
   claim_C1_amended.2.2.2.2.2.2.2.2.2.2 _ (by decide)⟩

/-! ## Quantile facts -/

theorem quantileOfSorted_ge {s : List ℚ} {q b : ℚ} (hq0 : 0 ≤ q) (hq1 : q ≤ 1)
    (hlen : 0 < s.length) (hmem : ∀ x ∈ s, b ≤ x) : b ≤ quantileOfSorted s q := by
  unfold quantileOfSorted
  generalize hhgen : q * ((s.length : ℚ) - 1) = hv
  have hn1 : (1 : ℚ) ≤ (s.length : ℚ) := by exact_mod_cast hlen
  have hh0 : 0 ≤ hv := by
    rw [← hhgen]
    exact mul_nonneg hq0 (by linarith)
  have hhn : hv ≤ (s.length : ℚ) - 1 := by
    rw [← hhgen]
    calc q * ((s.length : ℚ) - 1) ≤ 1 * ((s.length : ℚ) - 1) :=
          mul_le_mul_of_nonneg_right hq1 (by linarith)
      _ = (s.length : ℚ) - 1 := one_mul _
  have hfl0 : 0 ≤ ⌊hv⌋ := Int.floor_nonneg.mpr hh0
  have hfl_le : ⌊hv⌋ ≤ (s.length : ℤ) - 1 := by
    have h2 : ((s.length : ℤ) - 1 : ℤ) = ⌊((s.length : ℚ) - 1)⌋ := by
      rw [show ((s.length : ℚ) - 1) = (((s.length : ℤ) - 1 : ℤ) : ℚ) by push_cast; ring]
      rw [Int.floor_intCast]
    rw [h2]
    exact Int.floor_le_floor hhn
  have hi_lt : (⌊hv⌋).toNat < s.length := by omega
  have hi2_lt : min ((⌊hv⌋).toNat + 1) (s.length - 1) < s.length := by omega
  have ha : b ≤ s.getD (⌊hv⌋).toNat 0 := by
    rw [List.getD_eq_getElem s 0 hi_lt]
    exact hmem _ (List.getElem_mem hi_lt)
  have hbb : b ≤ s.getD (min ((⌊hv⌋).toNat + 1) (s.length - 1)) 0 := by
    rw [List.getD_eq_getElem s 0 hi2_lt]
    exact hmem _ (List.getElem_mem hi2_lt)
  have hcast : ((⌊hv⌋).toNat : ℚ) = ((⌊hv⌋ : ℤ) : ℚ) := by
    exact_mod_cast congrArg (fun z : ℤ => (z : ℚ)) (Int.toNat_of_nonneg hfl0)
  have hg0 : 0 ≤ hv - ((⌊hv⌋).toNat : ℚ) := by
    rw [hcast]
    have := Int.floor_le hv
    linarith
  have hg1 : hv - ((⌊hv⌋).toNat : ℚ) ≤ 1 := by
    rw [hcast]
    have := Int.lt_floor_add_one hv
    linarith
  set a := s.getD (⌊hv⌋).toNat 0
  set bb := s.getD (min ((⌊hv⌋).toNat + 1) (s.length - 1)) 0
  set g := hv - ((⌊hv⌋).toNat : ℚ)
  have h1 : 0 ≤ (1 - g) * (a - b) :=
    mul_nonneg (by linarith) (by linarith)
  have h2 : 0 ≤ g * (bb - b) :=
    mul_nonneg hg0 (by linarith)
  nlinarith [h1, h2]

theorem quantileVals_ge {l : List ℚ} {q : ℚ} {b y : ℚ}
    (hq0 : 0 ≤ q) (hq1 : q ≤ 1) (hb : ∀ x ∈ l, b ≤ x)
    (hy : quantileVals l q = some y) : b ≤ y := by
  unfold quantileVals at hy
  split_ifs at hy with hs
  rw [← Option.some.inj hy]
  apply quantileOfSorted_ge hq0 hq1
  · cases he : List.insertionSort (· ≤ ·) l with
    | nil => exact absurd (by rw [he]; rfl) hs
    | cons a as => simp
  · intro x hx
    exact hb x ((List.perm_insertionSort (· ≤ ·) l).subset hx)

/-- C3: in the price-per-area censoring stage the acceptance band is
[max(1000, p0.1), min(50000, p99.9)] over the remaining rows' prix_m2;
a row with a float prix_m2 is kept exactly when its value lies in the
band (so every row outside is dropped and every row inside kept), a
missing percentile falls back to the hard bound alone, and rows with a
missing prix_m2 are dropped. -/
theorem claim_C3_prix_censor_band :
    (∀ (df : DF) (r : List Cell) (q : ℚ),
      hasCol df "prix_m2" = true →
      cellAt df r "prix_m2" = Cell.num q →
      (r ∈ (stage_prix_censor df).rows ↔
        r ∈ df.rows ∧
        (match quantileCol (getCol df "prix_m2") (mkRat 1 1000) with
          | some p => max 1000 p
          | none => (1000 : ℚ)) ≤ q ∧
        q ≤ (match quantileCol (getCol df "prix_m2") (mkRat 999 1000) with
          | some p => min 50000 p
          | none => (50000 : ℚ)))) ∧
    (∀ (df : DF) (r : List Cell),
      hasCol df "prix_m2" = true →
      cellAt df r "prix_m2" = Cell.null →
      r ∉ (stage_prix_censor df).rows) := by
  constructor
  · intro df r q hcol hq
    unfold stage_prix_censor
    rw [if_pos hcol]
    simp only [filterRows, List.mem_filter, hq, cell_ge_const, cell_le_const,
      Bool.and_eq_true, decide_eq_true_eq]
    unfold prix_low prix_high
    exact Iff.rfl
  · intro df r hcol hnull
    unfold stage_prix_censor
    rw [if_pos hcol]
    simp only [filterRows, List.mem_filter, hnull, cell_ge_const, Bool.false_and]
    intro hcon
    exact absurd hcon.2 (by simp)

theorem claim_C3_witness :
    [Cell.num 2000] ∈
      (stage_prix_censor ⟨["prix_m2"], [[Cell.num 2000]]⟩).rows := by
  have hq1 : quantileCol (getCol ⟨["prix_m2"], [[Cell.num 2000]]⟩ "prix_m2")
      (mkRat 1 1000) = some 2000 := by
    show quantileVals [(2000 : ℚ)] (mkRat 1 1000) = some 2000
    unfold quantileVals
    rw [if_neg (by decide)]
    congr 1
    unfold quantileOfSorted
    norm_num [List.insertionSort, List.orderedInsert, List.getD]
  have hq999 : quantileCol (getCol ⟨["prix_m2"], [[Cell.num 2000]]⟩ "prix_m2")
      (mkRat 999 1000) = some 2000 := by
    show quantileVals [(2000 : ℚ)] (mkRat 999 1000) = some 2000
    unfold quantileVals
    rw [if_neg (by decide)]
    congr 1
    unfold quantileOfSorted
    norm_num [List.insertionSort, List.orderedInsert, List.getD]
  refine (claim_C3_prix_censor_band.1 ⟨["prix_m2"], [[Cell.num 2000]]⟩
    [Cell.num 2000] 2000 (by decide) rfl).mpr ⟨by simp, ?_, ?_⟩
  · rw [hq1]
    norm_num
  · rw [hq999]
    norm_num

/-- C6 counterexample: the price-per-area filter is NOT guaranteed to
retain a row exactly at the computed upper bound: with a single row of
prix_m2 = 500 the band degenerates (p99.9 = 500 gives upper bound
min(50000,500) = 500 but lower bound max(1000,500) = 1000), and the row
sitting exactly at the upper bound is dropped. -/
theorem claim_C6_counterexample :
    prix_high ⟨["prix_m2"], [[Cell.num 500]]⟩ = 500 ∧
    cellAt ⟨["prix_m2"], [[Cell.num 500]]⟩ [Cell.num 500] "prix_m2" = Cell.num 500 ∧
    [Cell.num 500] ∉ (stage_prix_censor ⟨["prix_m2"], [[Cell.num 500]]⟩).rows := by
  have hq999 : quantileCol (getCol ⟨["prix_m2"], [[Cell.num 500]]⟩ "prix_m2")
      (mkRat 999 1000) = some 500 := by
    show quantileVals [(500 : ℚ)] (mkRat 999 1000) = some 500
    unfold quantileVals
    rw [if_neg (by decide)]
    congr 1
    unfold quantileOfSorted
    norm_num [List.insertionSort, List.orderedInsert, List.getD]
  have hq1 : quantileCol (getCol ⟨["prix_m2"], [[Cell.num 500]]⟩ "prix_m2")
      (mkRat 1 1000) = some 500 := by
    show quantileVals [(500 : ℚ)] (mkRat 1 1000) = some 500
    unfold quantileVals
    rw [if_neg (by decide)]
    congr 1
    unfold quantileOfSorted
    norm_num [List.insertionSort, List.orderedInsert, List.getD]
  have hhigh : prix_high ⟨["prix_m2"], [[Cell.num 500]]⟩ = 500 := by
    unfold prix_high
    rw [hq999]
    norm_num
  have hlow : prix_low ⟨["prix_m2"], [[Cell.num 500]]⟩ = 1000 := by
    unfold prix_low
    rw [hq1]
    norm_num
  refine ⟨hhigh, rfl, ?_⟩
  unfold stage_prix_censor
  rw [if_pos (by decide)]
  simp only [filterRows, List.mem_filter, hlow]
  intro hcon
  have h2 := hcon.2
  rw [show cellAt ⟨["prix_m2"], [[Cell.num 500]]⟩ [Cell.num 500] "prix_m2" =
    Cell.num 500 from rfl] at h2
  simp only [cell_ge_const, cell_le_const, Bool.and_eq_true, decide_eq_true_eq] at h2
  have := h2.1
  norm_num at this

theorem cellAt_filterRows (df : DF) (p : List Cell → Bool) (r : List Cell) (c : String) :
    cellAt (filterRows df p) r c = cellAt df r c := rfl

/-- C6 (amended): the censoring boundaries are inclusive on the
acceptance side.  A row with built area exactly 9 is retained by the
area stage and one with area < 9 (e.g. 8.999) is dropped; a row with
prix_m2 exactly at the computed upper plausibility bound is retained
provided it also meets the lower bound (which can fail when the band
degenerates), and a row strictly above the upper bound is always
dropped. -/
theorem claim_C6_amended :
    (∀ (df : DF) (r : List Cell),
      hasCol df "surface_reelle_bati" = true →
      cellAt df r "surface_reelle_bati" = Cell.num 9 →
      r ∈ df.rows → r ∈ (stage_area df).rows) ∧
    (∀ (df : DF) (r : List Cell) (q : ℚ),
      hasCol df "surface_reelle_bati" = true →
      cellAt df r "surface_reelle_bati" = Cell.num q → q < 9 →
      r ∉ (stage_area df).rows) ∧
    (∀ (df : DF) (r : List Cell) (q : ℚ),
      hasCol df "prix_m2" = true →
      cellAt df r "prix_m2" = Cell.num q →
      q = prix_high df → prix_low df ≤ q →
      r ∈ df.rows → r ∈ (stage_prix_censor df).rows) ∧
    (∀ (df : DF) (r : List Cell) (q : ℚ),
      hasCol df "prix_m2" = true →
      cellAt df r "prix_m2" = Cell.num q →
      prix_high df < q →
      r ∉ (stage_prix_censor df).rows) := by
  refine ⟨?_, ?_, ?_, ?_⟩
  · intro df r hcol hq hr
    unfold stage_area
    rw [if_pos hcol]
    have hmem1 : r ∈ (filterRows df
        (fun r => cell_ge_const (cellAt df r "surface_reelle_bati") 9)).rows := by
      simp only [filterRows, List.mem_filter]
      exact ⟨hr, by simp [cell_ge_const, hq]⟩
    unfold stage_area_cut
    cases hsq : quantileCol
        (getCol (filterRows df
          (fun r => cell_ge_const (cellAt df r "surface_reelle_bati") 9))
          "surface_reelle_bati")
        (mkRat 999 1000) with
    | none => exact hmem1
    | some sq =>
      have hbound : ∀ x ∈ (getCol (filterRows df
          (fun r => cell_ge_const (cellAt df r "surface_reelle_bati") 9))
          "surface_reelle_bati").filterMap cellNum, (9 : ℚ) ≤ x := by
        intro x hx
        obtain ⟨cell, hcellmem, hcn⟩ := List.mem_filterMap.mp hx
        obtain ⟨r2, hr2, hcell⟩ := List.mem_map.mp hcellmem
        have hpred := (List.mem_filter.mp hr2).2
        rw [cellAt_filterRows] at hcell
        rw [← hcell] at hcn
        cases hc : cellAt df r2 "surface_reelle_bati" with
        | num v =>
          rw [hc] at hcn hpred
          simp only [cellNum, Option.some.injEq] at hcn
          simp only [cell_ge_const, decide_eq_true_eq] at hpred
          rw [← hcn]
          exact hpred
        | null => rw [hc] at hcn; simp [cellNum] at hcn
        | str s => rw [hc] at hcn; simp [cellNum] at hcn
        | date y m d => rw [hc] at hcn; simp [cellNum] at hcn
      have h9sq : (9 : ℚ) ≤ sq := by
        apply quantileVals_ge (l := (getCol (filterRows df
            (fun r => cell_ge_const (cellAt df r "surface_reelle_bati") 9))
            "surface_reelle_bati").filterMap cellNum) (q := mkRat 999 1000)
        · rw [Rat.mkRat_eq_div]; norm_num
        · rw [Rat.mkRat_eq_div]; norm_num
        · exact hbound
        · exact hsq
      refine List.mem_filter.mpr ⟨hmem1, ?_⟩
      rw [cellAt_filterRows, hq]
      simp only [cell_le_const, decide_eq_true_eq]
      exact h9sq
  · intro df r q hcol hq hq9 hcon
    unfold stage_area at hcon
    rw [if_pos hcol] at hcon
    have hmem1 : r ∈ (filterRows df
        (fun r => cell_ge_const (cellAt df r "surface_reelle_bati") 9)).rows := by
      unfold stage_area_cut at hcon
      cases hsq : quantileCol
          (getCol (filterRows df
            (fun r => cell_ge_const (cellAt df r "surface_reelle_bati") 9))
            "surface_reelle_bati")
          (mkRat 999 1000) with
      | none => rw [hsq] at hcon; exact hcon
      | some sq => rw [hsq] at hcon; exact (List.mem_filter.mp hcon).1
    have hpred := (List.mem_filter.mp hmem1).2
    rw [hq] at hpred
    simp only [cell_ge_const, decide_eq_true_eq] at hpred
    linarith
  · intro df r q hcol hq hqh hql hr
    unfold stage_prix_censor
    rw [if_pos hcol]
    refine List.mem_filter.mpr ⟨hr, ?_⟩
    rw [hq]
    simp only [cell_ge_const, cell_le_const, Bool.and_eq_true, decide_eq_true_eq]
    exact ⟨hql, le_of_eq hqh⟩
  · intro df r q hcol hq hgt hcon
    unfold stage_prix_censor at hcon
    rw [if_pos hcol] at hcon
    have hpred := (List.mem_filter.mp hcon).2
    rw [hq] at hpred
    simp only [cell_ge_const, cell_le_const, Bool.and_eq_true, decide_eq_true_eq] at hpred
    linarith [hpred.2]

theorem claim_C6_amended_witness :
    [Cell.num 9] ∈ (stage_area ⟨["surface_reelle_bati"], [[Cell.num 9]]⟩).rows ∧
    [Cell.num 60000] ∉ (stage_prix_censor ⟨["prix_m2"], [[Cell.num 60000]]⟩).rows := by
  constructor
  · exact claim_C6_amended.1 ⟨["surface_reelle_bati"], [[Cell.num 9]]⟩ [Cell.num 9]
      (by decide) rfl (by simp)
  · apply claim_C6_amended.2.2.2 ⟨["prix_m2"], [[Cell.num 60000]]⟩ [Cell.num 60000] 60000
      (by decide) rfl
    have hq999 : quantileCol (getCol ⟨["prix_m2"], [[Cell.num 60000]]⟩ "prix_m2")
        (mkRat 999 1000) = some 60000 := by
      show quantileVals [(60000 : ℚ)] (mkRat 999 1000) = some 60000
      unfold quantileVals
      rw [if_neg (by decide)]
      congr 1
      unfold quantileOfSorted
      norm_num [List.insertionSort, List.orderedInsert, List.getD]
    unfold prix_high
    rw [hq999]
    norm_num

/-! ## Deduplication facts -/

theorem find?_sorted {α : Type} {R : α → α → Prop} {p : α → Bool} :
    ∀ {l : List α} {x : α}, l.Pairwise R → l.find? p = some x →
      ∀ y ∈ l, p y = true → y = x ∨ R x y := by
  intro l
  induction l with
  | nil => intro x _ hf; simp at hf
  | cons a as ih =>
    intro x hp hf y hy hpy
    rcases hpa : p a with _ | _
    · rw [List.find?_cons_of_neg _ (by simp [hpa])] at hf
      rcases List.mem_cons.mp hy with h | h
      · subst h; rw [hpy] at hpa; cases hpa
      · exact ih (List.pairwise_cons.mp hp).2 hf y h hpy
    · rw [List.find?_cons_of_pos _ hpa] at hf
      cases hf
      rcases List.mem_cons.mp hy with h | h
      · left; exact h
      · right; exact (List.pairwise_cons.mp hp).1 y h

theorem dedupKeep_mem_of_find {key : List Cell → List Cell} {k : List Cell} :
    ∀ {l : List (List Cell)} {seen : List (List Cell)} {r : List Cell},
      l.find? (fun r => decide (key r = k)) = some r → k ∉ seen →
      r ∈ dedupKeep key l seen := by
  have hgen : ∀ (p : List Cell → Bool), p = (fun r => decide (key r = k)) →
      ∀ (l : List (List Cell)) (seen : List (List Cell)) (r : List Cell),
        l.find? p = some r → k ∉ seen → r ∈ dedupKeep key l seen := by
    intro p hp l
    induction l with
    | nil => intro seen r hf; simp at hf
    | cons a as ih =>
      intro seen r hf hk
      rcases hpa : p a with _ | _
      · rw [List.find?_cons_of_neg _ (by simp [hpa])] at hf
        unfold dedupKeep
        split_ifs with hmem
        · exact ih seen r hf hk
        · refine List.mem_cons_of_mem a (ih (key a :: seen) r hf ?_)
          intro hcon
          rcases List.mem_cons.mp hcon with h | h
          · rw [hp] at hpa
            simp only [decide_eq_false_iff_not] at hpa
            exact hpa h.symm
          · exact hk h
      · rw [List.find?_cons_of_pos _ hpa] at hf
        cases hf
        unfold dedupKeep
        rw [hp] at hpa
        have hke : key a = k := of_decide_eq_true hpa
        split_ifs with hmem
        · exact absurd (hke ▸ hmem) hk
        · exact List.mem_cons_self _ _
  intro l seen r hf hk
  exact hgen _ rfl l seen r hf hk

theorem dedupKeep_count {key : List Cell → List Cell} {k : List Cell} :
    ∀ (l : List (List Cell)) (seen : List (List Cell)),
      ((dedupKeep key l seen).filter (fun r => decide (key r = k))).length ≤
        (if k ∈ seen then 0 else 1) := by
  have hgen : ∀ (p : List Cell → Bool), p = (fun r => decide (key r = k)) →
      ∀ (l : List (List Cell)) (seen : List (List Cell)),
        ((dedupKeep key l seen).filter p).length ≤ (if k ∈ seen then 0 else 1) := by
    intro p hp l
    induction l with
    | nil =>
      intro seen
      unfold dedupKeep
      simp only [List.filter_nil, List.length_nil]
      split_ifs <;> omega
    | cons a as ih =>
      intro seen
      unfold dedupKeep
      by_cases hmem : key a ∈ seen
      · rw [if_pos hmem]
        exact ih seen
      · rw [if_neg hmem]
        rcases hpa : p a with _ | _
        · rw [List.filter_cons_of_neg (by simp [hpa])]
          have hthis := ih (key a :: seen)
          by_cases hk2 : k ∈ seen
          · rw [if_pos hk2]
            rw [if_pos (List.mem_cons_of_mem _ hk2)] at hthis
            omega
          · rw [if_neg hk2]
            rw [if_neg (by
              intro hcon
              rcases List.mem_cons.mp hcon with h | h
              · rw [hp] at hpa
                simp only [decide_eq_false_iff_not] at hpa
                exact hpa h.symm
              · exact hk2 h)] at hthis
            omega
        · have hke : key a = k := by
            rw [hp] at hpa
            exact of_decide_eq_true hpa
          rw [List.filter_cons_of_pos hpa]
          have hthis := ih (key a :: seen)
          rw [if_pos (by rw [hke]; exact List.mem_cons_self _ _)] at hthis
          by_cases hk2 : k ∈ seen
          · exact absurd (by rw [hke]; exact hk2) hmem
          · rw [if_neg hk2]
            simp only [List.length_cons]
            omega
  intro l seen
  exact hgen _ rfl l seen

theorem two_le_filter_length {α : Type} {l : List α} {p : α → Bool} {x y : α}
    (hx : x ∈ l) (hy : y ∈ l) (hxy : x ≠ y) (hpx : p x = true) (hpy : p y = true) :
    2 ≤ (l.filter p).length := by
  have hx2 : x ∈ l.filter p := List.mem_filter.mpr ⟨hx, hpx⟩
  have hy2 : y ∈ l.filter p := List.mem_filter.mpr ⟨hy, hpy⟩
  obtain ⟨s, t, hst⟩ := List.append_of_mem hx2
  rw [hst] at hy2
  rw [hst, List.length_append, List.length_cons]
  rcases List.mem_append.mp hy2 with h | h
  · have := List.length_pos_of_mem h
    omega
  · rcases List.mem_cons.mp h with h2 | h2
    · exact absurd h2.symm hxy
    · have := List.length_pos_of_mem h2
      omega

/-- C2 counterexample: when id_mutation is absent but numero_disposition
is present, the code deduplicates on numero_disposition alone, not by
full-row equality as the claim states: two fully distinct rows sharing
only numero_disposition collapse to one. -/
theorem claim_C2_counterexample :
    stage_dedup ⟨["numero_disposition", "valeur_fonciere", "date_mutation"],
        [[Cell.str "1", Cell.num 100, Cell.date 2020 1 1],
         [Cell.str "1", Cell.num 200, Cell.date 2020 1 2]]⟩ =
      Except.ok ⟨["numero_disposition", "valeur_fonciere", "date_mutation"],
        [[Cell.str "1", Cell.num 100, Cell.date 2020 1 1]]⟩ ∧
    [Cell.str "1", Cell.num 100, Cell.date 2020 1 1] ≠
      ([Cell.str "1", Cell.num 200, Cell.date 2020 1 2] : List Cell) := by
  constructor
  · rfl
  · intro h
    simp only [List.cons.injEq] at h
    have h2 := h.2.1
    cases h2

/-- C2 (amended): the deduplication stage sorts by transaction date
(missing last) and keeps the first row per key, where the key is the
subset of {id_mutation, numero_disposition} that exists — both when
both exist, the single present one when only one exists (not full-row
equality, as the counterexample shows for a frame with only
numero_disposition), and full-row equality only when neither exists
(without any sort in that branch).  When both key columns and the date
column exist, of two rows with the same key and distinct dates exactly
the earlier-dated one survives. -/
theorem claim_C2_amended :
    (∀ (df : DF) (k r1 r2 : List Cell) (y1 : Int) (m1 d1 : Nat) (y2 : Int) (m2 d2 : Nat),
      hasCol df "id_mutation" = true →
      hasCol df "numero_disposition" = true →
      hasCol df "date_mutation" = true →
      r1 ∈ df.rows → r2 ∈ df.rows →
      List.map (cellAt df r1) ["id_mutation", "numero_disposition"] = k →
      List.map (cellAt df r2) ["id_mutation", "numero_disposition"] = k →
      (∀ r ∈ df.rows, List.map (cellAt df r) ["id_mutation", "numero_disposition"] = k →
        r = r1 ∨ r = r2) →
      cellAt df r1 "date_mutation" = Cell.date y1 m1 d1 →
      cellAt df r2 "date_mutation" = Cell.date y2 m2 d2 →
      dateLe y2 m2 d2 y1 m1 d1 = false →
      ∃ out : DF, stage_dedup df = Except.ok out ∧ r1 ∈ out.rows ∧ r2 ∉ out.rows) ∧
    (∀ df : DF, hasCol df "id_mutation" = false → hasCol df "numero_disposition" = false →
      stage_dedup df = Except.ok (drop_duplicates df none)) := by
  constructor
  · intro df k r1 r2 y1 m1 d1 y2 m2 d2 hid hnum hdate hr1 hr2 hk1 hk2 huniq hdc1 hdc2 hlt
    have hkeys : dedup_keys df = ["id_mutation", "numero_disposition"] := by
      unfold dedup_keys
      simp [List.filter, hid, hnum]
    have hr1ne : r1 ≠ r2 := by
      intro he
      rw [he, hdc2] at hdc1
      injection hdc1 with hy hm hd
      subst hy; subst hm; subst hd
      simp [dateLe] at hlt
    haveI htot : IsTotal (List Cell) (rowLe df "date_mutation") :=
      ⟨fun a b => by
        unfold rowLe
        rcases cellLe_total (cellAt df a "date_mutation") (cellAt df b "date_mutation")
          with h | h
        · left; exact h
        · right; exact h⟩
    haveI htrans : IsTrans (List Cell) (rowLe df "date_mutation") :=
      ⟨fun a b c hab hbc => cellLe_trans hab hbc⟩
    set S := List.insertionSort (rowLe df "date_mutation") df.rows with hS
    have hperm : S.Perm df.rows := List.perm_insertionSort _ _
    have hsorted : List.Pairwise (rowLe df "date_mutation") S :=
      List.sorted_insertionSort _ _
    have hSr1 : r1 ∈ S := hperm.mem_iff.mpr hr1
    set key : List Cell → List Cell :=
      fun r => List.map (cellAt df r) ["id_mutation", "numero_disposition"] with hkey
    have hfindsome : (S.find? (fun r => decide (key r = k))).isSome := by
      rw [List.find?_isSome]
      exact ⟨r1, hSr1, decide_eq_true hk1⟩
    obtain ⟨x, hx⟩ := Option.isSome_iff_exists.mp hfindsome
    have hpx := List.find?_some hx
    have hxS : x ∈ S := List.mem_of_find?_eq_some hx
    have hxk : key x = k := of_decide_eq_true hpx
    have hxr1 : x = r1 := by
      rcases huniq x (hperm.mem_iff.mp hxS) hxk with h | h
      · exact h
      · subst h
        have hs := find?_sorted hsorted hx r1 hSr1 (decide_eq_true hk1)
        rcases hs with h2 | h2
        · exact absurd h2 hr1ne
        · unfold rowLe at h2
          rw [hdc1, hdc2] at h2
          simp only [cellLe] at h2
          rw [hlt] at h2
          exact absurd h2 (by simp)
    subst hxr1
    have hsortv : sort_values df "date_mutation" = Except.ok { df with rows := S } := by
      unfold sort_values
      rw [if_pos hdate]
    have hstage : stage_dedup df =
        Except.ok (drop_duplicates { df with rows := S }
          (some ["id_mutation", "numero_disposition"])) := by
      unfold stage_dedup
      rw [if_neg (by rw [hkeys]; simp), hsortv, hkeys]
      rfl
    refine ⟨_, hstage, ?_, ?_⟩
    · show x ∈ dedupKeep key S []
      exact dedupKeep_mem_of_find hx (List.not_mem_nil k)
    · intro hcon
      have hcon2 : r2 ∈ dedupKeep key S [] := hcon
      have h1mem : x ∈ dedupKeep key S [] := dedupKeep_mem_of_find hx (List.not_mem_nil k)
      have hcnt := @dedupKeep_count key k S []
      rw [if_neg (List.not_mem_nil k)] at hcnt
      have h2le := two_le_filter_length (p := fun r => decide (key r = k)) h1mem hcon2
        hr1ne (decide_eq_true hk1) (decide_eq_true hk2)
      omega
  · intro df h1 h2
    have hkeys : dedup_keys df = [] := by
      unfold dedup_keys
      simp [List.filter, h1, h2]
    unfold stage_dedup
    rw [if_pos (by rw [hkeys]; rfl)]

theorem claim_C2_amended_witness :
    ∃ out : DF,
      stage_dedup ⟨["id_mutation", "numero_disposition", "date_mutation"],
        [[Cell.str "M1", Cell.str "1", Cell.date 2020 1 1],
         [Cell.str "M1", Cell.str "1", Cell.date 2020 1 2]]⟩ = Except.ok out ∧
      [Cell.str "M1", Cell.str "1", Cell.date 2020 1 1] ∈ out.rows ∧
      [Cell.str "M1", Cell.str "1", Cell.date 2020 1 2] ∉ out.rows :=
  claim_C2_amended.1
    ⟨["id_mutation", "numero_disposition", "date_mutation"],
      [[Cell.str "M1", Cell.str "1", Cell.date 2020 1 1],
       [Cell.str "M1", Cell.str "1", Cell.date 2020 1 2]]⟩
    [Cell.str "M1", Cell.str "1"]
    [Cell.str "M1", Cell.str "1", Cell.date 2020 1 1]
    [Cell.str "M1", Cell.str "1", Cell.date 2020 1 2]
    2020 1 1 2020 1 2
    (by decide) (by decide) (by decide) (by decide) (by decide)
    (by decide) (by decide) (by decide) (by decide) (by decide) (by decide)

/-! ## C10: make_df_clean operates on a copy of its input frame -/

/-- A heap of data-frame objects, for expressing Python-level mutation:
references are indices, `alloc` models `df_raw.copy()`, `set` models an
in-place update of the object a reference points to. -/
structure Store where
  mem : List DF

def Store.get (st : Store) (r : Nat) : DF := (st.mem[r]?).getD default

def Store.set (st : Store) (r : Nat) (d : DF) : Store := ⟨st.mem.set r d⟩

/-- Run the pipeline stages against the heap object at `r`, writing the
working frame back after each stage (the imperative
`df = stage(df)` rebindings all act on the copy, never on the caller's
object). -/
def applyStages : List (DF → Except String DF) → Store → Nat → Store × Except String Unit
  | [], st, _ => (st, Except.ok ())
  | g :: gs, st, r =>
    match g (st.get r) with
    | .error e => (st, .error e)
    | .ok d => applyStages gs (st.set r d) r

/-- Heap-level `make_df_clean`: copy the argument frame
(`df = df_raw.copy()`), run every stage on the copy, return the final
frame (or the pandas error). -/
def make_df_clean_store (st : Store) (r : Nat) : Store × Except String DF :=
  match applyStages stages ⟨st.mem ++ [st.get r]⟩ st.mem.length with
  | (st2, .ok _) => (st2, .ok (st2.get st.mem.length))
  | (st2, .error e) => (st2, .error e)

theorem applyStages_spec :
    ∀ (gs : List (DF → Except String DF)) (st : Store) (r1 : Nat),
      r1 < st.mem.length →
      ((applyStages gs st r1).1.mem.length = st.mem.length ∧
       (∀ j, j ≠ r1 → (applyStages gs st r1).1.get j = st.get j) ∧
       (∀ e, (applyStages gs st r1).2 = .error e →
         List.foldlM (fun d g => g d) (st.get r1) gs = .error e) ∧
       ((applyStages gs st r1).2 = .ok () →
         List.foldlM (fun d g => g d) (st.get r1) gs =
           .ok ((applyStages gs st r1).1.get r1))) := by
  intro gs
  induction gs with
  | nil =>
    intro st r1 hr1
    refine ⟨rfl, fun j _ => rfl, ?_, ?_⟩
    · intro e he
      simp [applyStages] at he
    · intro _
      rfl
  | cons g gs ih =>
    intro st r1 hr1
    unfold applyStages
    cases hg : g (st.get r1) with
    | error e =>
      refine ⟨rfl, fun j _ => rfl, ?_, ?_⟩
      · intro e2 he2
        simp only at he2
        cases he2
        show (g (st.get r1) >>= fun d => List.foldlM (fun d g => g d) d gs) = .error e
        rw [hg]
        rfl
      · intro hcon
        simp at hcon
    | ok d =>
      have hlen : (st.set r1 d).mem.length = st.mem.length := by
        simp [Store.set]
      have hget1 : (st.set r1 d).get r1 = d := by
        simp [Store.set, Store.get, List.getElem?_set_self, hr1]
      have hgetj : ∀ j, j ≠ r1 → (st.set r1 d).get j = st.get j := by
        intro j hj
        simp [Store.set, Store.get, List.getElem?_set_ne (Ne.symm hj)]
      obtain ⟨ih1, ih2, ih3, ih4⟩ := ih (st.set r1 d) r1 (by omega)
      refine ⟨by rw [ih1, hlen], ?_, ?_, ?_⟩
      · intro j hj
        rw [ih2 j hj, hgetj j hj]
      · intro e he
        show (g (st.get r1) >>= fun d => List.foldlM (fun d g => g d) d gs) = .error e
        rw [hg, except_bind_ok, ← hget1]
        exact ih3 e he
      · intro hok
        show (g (st.get r1) >>= fun d => List.foldlM (fun d g => g d) d gs) =
          .ok ((applyStages gs (st.set r1 d) r1).1.get r1)
        rw [hg, except_bind_ok]
        conv_lhs => rw [← hget1]
        exact ih4 hok

/-- C10: make_df_clean never mutates its input.  In the heap model the
pipeline first copies the argument frame (`df_raw.copy()`) and every
stage writes only to the copy, so after the call the caller's object is
value-equal to what it was before, and the returned result is exactly
the pure pipeline applied to the input value. -/
theorem claim_C10_no_mutation :
    ∀ (st : Store) (r : Nat), r < st.mem.length →
      (make_df_clean_store st r).1.get r = st.get r ∧
      (make_df_clean_store st r).2 = make_df_clean (st.get r) := by
  intro st r hr
  have hr1lt : st.mem.length < (Store.mk (st.mem ++ [st.get r])).mem.length := by
    simp
  have hgetr1 : (Store.mk (st.mem ++ [st.get r])).get st.mem.length = st.get r := by
    simp [Store.get]
  have hgetr : (Store.mk (st.mem ++ [st.get r])).get r = st.get r := by
    simp [Store.get, List.getElem?_append_left hr]
  obtain ⟨h1, h2, h3, h4⟩ :=
    applyStages_spec stages (Store.mk (st.mem ++ [st.get r])) st.mem.length hr1lt
  have hrne : r ≠ st.mem.length := by omega
  constructor
  · unfold make_df_clean_store
    cases hap : applyStages stages (Store.mk (st.mem ++ [st.get r])) st.mem.length with
    | mk st2 res =>
      cases res with
      | ok u =>
        cases u
        show st2.get r = st.get r
        have := h2 r hrne
        rw [hap] at this
        simp only at this
        rw [this, hgetr]
      | error e =>
        show st2.get r = st.get r
        have := h2 r hrne
        rw [hap] at this
        simp only at this
        rw [this, hgetr]
  · unfold make_df_clean_store
    cases hap : applyStages stages (Store.mk (st.mem ++ [st.get r])) st.mem.length with
    | mk st2 res =>
      cases res with
      | ok u =>
        cases u
        show Except.ok (st2.get st.mem.length) = make_df_clean (st.get r)
        have := h4 (by rw [hap])
        rw [hap] at this
        simp only at this
        unfold make_df_clean
        rw [← hgetr1, this]
      | error e =>
        show Except.error e = make_df_clean (st.get r)
        have := h3 e (by rw [hap])
        unfold make_df_clean
        rw [← hgetr1, this]

theorem claim_C10_no_mutation_witness :
    (make_df_clean_store ⟨[⟨["id_mutation"], [[Cell.str "A"]]⟩]⟩ 0).1.get 0 =
      Store.get ⟨[⟨["id_mutation"], [[Cell.str "A"]]⟩]⟩ 0 ∧
    (make_df_clean_store ⟨[⟨["id_mutation"], [[Cell.str "A"]]⟩]⟩ 0).2 =
      make_df_clean (Store.get ⟨[⟨["id_mutation"], [[Cell.str "A"]]⟩]⟩ 0) :=
  claim_C10_no_mutation ⟨[⟨["id_mutation"], [[Cell.str "A"]]⟩]⟩ 0 (by decide)

/-! ## C9: best-effort persistence -/

/-- The `try: ... except Exception: pass` around the cache writes: any
failure of the write is swallowed. -/
def try_write (w : Except String Unit) : Except String Unit :=
  match w with
  | .ok _ => .ok ()
  | .error _ => .ok ()

/-- make_df_clean with its optional parquet persistence (prep.py):
`cache_dir.mkdir` runs outside the try block (its failure propagates),
the parquet and metadata writes run inside it (their failure is
swallowed); the freshly built frame is returned either way. -/
def make_df_clean_with_save (df_raw : DF) (save_parquet : Bool)
    (mkdirResult : Except String Unit) (writeResult : Except String Unit) :
    Except String DF := do
  let dfc ← make_df_clean df_raw
  if save_parquet then do
    let _ ← mkdirResult
    let _ ← try_write writeResult
    .ok dfc
  else .ok dfc

/-- The tail of load_data (io.py): once df_raw is built, the parquet and
metadata writes run inside try/except and the frame is returned
unconditionally. -/
def load_data_save_phase (df_raw : DF) (use_parquet_cache : Bool)
    (writeResult : Except String Unit) : Except String DF :=
  if use_parquet_cache then do
    let _ ← try_write writeResult
    .ok df_raw
  else .ok df_raw

/-- C9: if writing the parquet table or its JSON metadata fails during
load_data or make_df_clean, the failure is swallowed and the freshly
built table is still returned unchanged: whatever the write result is,
make_df_clean_with_save returns exactly the pipeline's frame (whenever
the pipeline itself succeeds and the directory creation, which is not
part of the guarded write, succeeds), and load_data's save phase always
returns the built raw frame. -/
theorem claim_C9_best_effort_save :
    (∀ (df : DF) (save : Bool) (mk w : Except String Unit) (d : DF),
      make_df_clean df = Except.ok d → mk = Except.ok () →
      make_df_clean_with_save df save mk w = Except.ok d) ∧
    (∀ (df : DF) (use : Bool) (w : Except String Unit),
      load_data_save_phase df use w = Except.ok df) := by
  constructor
  · intro df save mk w d hdf hmk
    unfold make_df_clean_with_save
    rw [hdf, except_bind_ok, hmk]
    cases save with
    | true =>
      rw [if_pos rfl]
      cases w <;> rfl
    | false =>
      rw [if_neg (by simp)]
  · intro df use w
    unfold load_data_save_phase
    cases use with
    | true =>
      rw [if_pos rfl]
      cases w <;> rfl
    | false =>
      rw [if_neg (by simp)]

theorem claim_C9_best_effort_save_witness :
    make_df_clean_with_save ⟨["date_mutation"], []⟩ true (Except.ok ())
      (Except.error "disk full") =
      Except.ok ⟨["date_mutation", "annee", "trimestre"], []⟩ :=
  claim_C9_best_effort_save.1 ⟨["date_mutation"], []⟩ true (Except.ok ())
    (Except.error "disk full") ⟨["date_mutation", "annee", "trimestre"], []⟩ rfl rfl

/-! ## C4: the process-memory cache wrappers -/

/-- Modelled from the spec: app.py imports `load_data_cached`,
`make_df_clean_cached` and `dir_signature`, whose definitions are not
among the available sources (§4.7 describes them as `st.cache_data`
style memoizing wrappers keyed on the directory signature for loading
and on the raw-table value for cleaning).  A process-memory cache is an
association list from call key to stored result. -/
def cache_lookup {K V : Type} [DecidableEq K] : List (K × V) → K → Option V
  | [], _ => none
  | (k0, v) :: rest, k => if k0 = k then some v else cache_lookup rest k

/-- Modelled from the spec: a memoized call — return the cached result
on a hit, otherwise call the underlying function and remember its
result. -/
def cached_call {K V : Type} [DecidableEq K] (f : K → V) (cache : List (K × V)) (k : K) :
    V × List (K × V) :=
  match cache_lookup cache k with
  | some v => (v, cache)
  | none => (f k, (k, f k) :: cache)

/-- Every entry the cache holds is the underlying function's value at
its key (true of the empty cache and preserved by `cached_call`). -/
def CacheConsistent {K V : Type} [DecidableEq K] (f : K → V) (cache : List (K × V)) : Prop :=
  ∀ k v, cache_lookup cache k = some v → v = f k

/-- Modelled from the spec: `make_df_clean_cached`, the session cache
around the cleaning pipeline, keyed on the raw frame. -/
def make_df_clean_cached (cache : List (DF × Except String DF)) (df_raw : DF) :
    Except String DF × List (DF × Except String DF) :=
  cached_call make_df_clean cache df_raw

/-- Modelled from the spec: `load_data_cached`, the session cache around
the raw load, keyed on the directory signature and directory; the
underlying loader is abstract. -/
def load_data_cached {Sig : Type} [DecidableEq Sig]
    (load_data : Sig × String → DF) (cache : List ((Sig × String) × DF))
    (k : Sig × String) : DF × List ((Sig × String) × DF) :=
  cached_call load_data cache k

/-- C4: the memoizing wrappers are behaviourally transparent: on any
consistent cache a wrapped call returns exactly what the underlying
function returns on the same inputs, and leaves the cache consistent —
instantiated for make_df_clean_cached (keyed by the raw frame) and
load_data_cached (keyed by signature and directory). -/
theorem claim_C4_cached_transparent :
    (∀ {K V : Type} [DecidableEq K] (f : K → V) (cache : List (K × V)) (k : K),
      CacheConsistent f cache →
      (cached_call f cache k).1 = f k ∧ CacheConsistent f (cached_call f cache k).2) ∧
    (∀ (cache : List (DF × Except String DF)) (df : DF),
      CacheConsistent make_df_clean cache →
      (make_df_clean_cached cache df).1 = make_df_clean df) ∧
    (∀ {Sig : Type} [DecidableEq Sig] (ld : Sig × String → DF)
      (cache : List ((Sig × String) × DF)) (k : Sig × String),
      CacheConsistent ld cache → (load_data_cached ld cache k).1 = ld k) := by
  have hmain : ∀ {K V : Type} [DecidableEq K] (f : K → V) (cache : List (K × V)) (k : K),
      CacheConsistent f cache →
      (cached_call f cache k).1 = f k ∧ CacheConsistent f (cached_call f cache k).2 := by
    intro K V _ f cache k hcons
    unfold cached_call
    cases hl : cache_lookup cache k with
    | some v =>
      exact ⟨hcons k v hl, hcons⟩
    | none =>
      refine ⟨rfl, ?_⟩
      intro k2 v2 hl2
      unfold cache_lookup at hl2
      split_ifs at hl2 with hk
      · cases hl2
        rw [← hk]
      · exact hcons k2 v2 hl2
  refine ⟨hmain, ?_, ?_⟩
  · intro cache df hcons
    exact (hmain make_df_clean cache df hcons).1
  · intro Sig _ ld cache k hcons
    exact (hmain ld cache k hcons).1

theorem claim_C4_cached_transparent_witness :
    (make_df_clean_cached [] ⟨["date_mutation"], []⟩).1 =
      make_df_clean ⟨["date_mutation"], []⟩ :=
  claim_C4_cached_transparent.2.1 [] ⟨["date_mutation"], []⟩
    (fun _ _ h => Option.noConfusion h)

/-! ## C5: directory signatures (utils/io.py) -/

/-- fnmatch-style glob matching with `*` and `?`, via a fuel counter
(each step shortens pattern + string, so the initial fuel always
suffices). -/
def globMatchAux : Nat → List Char → List Char → Bool
  | 0, _, _ => false
  | _ + 1, [], [] => true
  | _ + 1, [], _ :: _ => false
  | fuel + 1, '*' :: ps, s =>
    globMatchAux fuel ps s ||
      (match s with
       | [] => false
       | _ :: srest => globMatchAux fuel ('*' :: ps) srest)
  | fuel + 1, '?' :: ps, _ :: srest => globMatchAux fuel ps srest
  | _ + 1, '?' :: _, [] => false
  | fuel + 1, p :: ps, c :: srest => p == c && globMatchAux fuel ps srest
  | _ + 1, _ :: _, [] => false

def globMatch (pat s : List Char) : Bool := globMatchAux (pat.length + s.length + 1) pat s

/-- One file's stat data as seen by `_dir_signature`: name, byte size,
and the floating-point st_mtime. -/
structure FSFile where
  name : List Char
  size : Nat
  st_mtime : ℚ
deriving DecidableEq

/-- Python `int()` of a float: truncation toward zero. -/
def pyInt (q : ℚ) : Int := q.num.tdiv q.den

/-- One entry of the signature's "files" list: name, size, and the
second-truncated mtime. -/
structure FileMeta where
  name : List Char
  size : Nat
  mtime : Int
deriving DecidableEq

/-- The signature dictionary built by `_dir_signature`. -/
structure DirSig where
  pattern : List Char
  files : List FileMeta
  count : Nat
  total_size : Nat
deriving DecidableEq

def nameLe (f g : FSFile) : Prop := strLe f.name g.name = true

instance : DecidableRel nameLe := fun f g => by
  unfold nameLe; infer_instance

/-- Embedding of `_dir_signature`: glob-match the directory entries,
sort them by name (``sorted(data_dir.glob(pattern))``), and record
pattern, per-file {name, size, int(mtime)}, count and total size. -/
def _dir_signature (fs : List FSFile) (pattern : List Char) : DirSig :=
  { pattern := pattern,
    files := (List.insertionSort nameLe
      (fs.filter (fun f => globMatch pattern f.name))).map
        (fun f => ⟨f.name, f.size, pyInt f.st_mtime⟩),
    count := (List.insertionSort nameLe
      (fs.filter (fun f => globMatch pattern f.name))).length,
    total_size := ((List.insertionSort nameLe
      (fs.filter (fun f => globMatch pattern f.name))).map FSFile.size).sum }

/-! ### json.dumps(..., sort_keys=True) of a signature -/

def hexChar (n : Nat) : Char := "0123456789abcdef".toList.getD n '0'

/-- Python json's escaping of one character (ensure_ascii=True): the
two-character escapes from ESCAPE_DCT, \u00xx for other control characters,
printable ASCII kept, and \uXXXX (with surrogate pairs beyond the BMP)
for everything non-ASCII. -/
def encChar (c : Char) : List Char :=
  let n := c.toNat
  if n = 34 then ['\\', '"']
  else if n = 92 then ['\\', '\\']
  else if n = 8 then ['\\', 'b']
  else if n = 9 then ['\\', 't']
  else if n = 10 then ['\\', 'n']
  else if n = 12 then ['\\', 'f']
  else if n = 13 then ['\\', 'r']
  else if n < 32 then ['\\', 'u', '0', '0', hexChar (n / 16), hexChar (n % 16)]
  else if n < 127 then [c]
  else if n < 65536 then
    ['\\', 'u', hexChar (n / 4096), hexChar ((n / 256) % 16), hexChar ((n / 16) % 16),
      hexChar (n % 16)]
  else
    ['\\', 'u', hexChar ((55296 + (n - 65536) / 1024) / 4096),
      hexChar (((55296 + (n - 65536) / 1024) / 256) % 16),
      hexChar (((55296 + (n - 65536) / 1024) / 16) % 16),
      hexChar ((55296 + (n - 65536) / 1024) % 16),
      '\\', 'u', hexChar ((56320 + (n - 65536) % 1024) / 4096),
      hexChar (((56320 + (n - 65536) % 1024) / 256) % 16),
      hexChar (((56320 + (n - 65536) % 1024) / 16) % 16),
      hexChar ((56320 + (n - 65536) % 1024) % 16)]

def encStr (s : List Char) : List Char := '"' :: (s.flatMap encChar ++ ['"'])

def lit (s : String) : List Char := s.toList

/-- json.dumps of one files-entry (keys sorted: mtime, name, size). -/
def serializeFile (f : FileMeta) : List Char :=
  lit "\x7b\"mtime\": " ++ intRepr f.mtime ++ lit ", \"name\": " ++ encStr f.name ++
    lit ", \"size\": " ++ natRepr f.size ++ lit "\x7d"

/-- json.dumps of the files list (separator ", "). -/
def serializeFiles (fs : List FileMeta) : List Char :=
  '[' :: ((match fs with
    | [] => []
    | f :: rest => serializeFile f ++ rest.flatMap (fun g => lit ", " ++ serializeFile g))
    ++ [']'])

/-- json.dumps(sig, sort_keys=True): keys in the order count, files,
pattern, total_size. -/
def serializeSig (s : DirSig) : List Char :=
  lit "\x7b\"count\": " ++ natRepr s.count ++ lit ", \"files\": " ++
    serializeFiles s.files ++ lit ", \"pattern\": " ++ encStr s.pattern ++
    lit ", \"total_size\": " ++ natRepr s.total_size ++ lit "\x7d"

/-- Embedding of `_same_signature`: byte equality of the two canonical
serializations. -/
def _same_signature (a b : DirSig) : Bool := serializeSig a == serializeSig b

/-! ### A decoder for the serialized form (to prove injectivity) -/

def hexVal (c : Char) : Option Nat :=
  if 48 ≤ c.toNat ∧ c.toNat ≤ 57 then some (c.toNat - 48)
  else if 97 ≤ c.toNat ∧ c.toNat ≤ 102 then some (c.toNat - 87)
  else none

/-- Read a maximal digit run as a natural number. -/
def pNum (l : List Char) : Option (Nat × List Char) :=
  if (l.takeWhile isDigitChar).isEmpty then none
  else some (digitsToNat (l.takeWhile isDigitChar), l.dropWhile isDigitChar)

/-- Read an optionally minus-signed integer. -/
def pInt : List Char → Option (Int × List Char)
  | '-' :: r => (pNum r).map (fun p => (-(p.1 : Int), p.2))
  | r => (pNum r).map (fun p => ((p.1 : Int), p.2))

/-- Combine four hex digits into a code unit. -/
def hex4 (a b c d : Char) : Option Nat :=
  (hexVal a).bind fun va => (hexVal b).bind fun vb => (hexVal c).bind fun vc =>
    (hexVal d).map fun vd => ((va * 16 + vb) * 16 + vc) * 16 + vd

/-- Read the body of a JSON string up to its closing quote, undoing
`encChar`; the fuel bounds the number of decoded characters. -/
def decodeStrLoopF : Nat → List Char → Option (List Char × List Char)
  | 0, _ => none
  | _ + 1, [] => none
  | fuel + 1, c :: rest =>
    if c = '"' then some ([], rest)
    else if c = '\\' then
      match rest with
      | [] => none
      | e :: r =>
        if e = '"' then (decodeStrLoopF fuel r).map (fun p => ('"' :: p.1, p.2))
        else if e = '\\' then (decodeStrLoopF fuel r).map (fun p => ('\\' :: p.1, p.2))
        else if e = 'b' then (decodeStrLoopF fuel r).map (fun p => ('\x08' :: p.1, p.2))
        else if e = 't' then (decodeStrLoopF fuel r).map (fun p => ('\t' :: p.1, p.2))
        else if e = 'n' then (decodeStrLoopF fuel r).map (fun p => ('\n' :: p.1, p.2))
        else if e = 'f' then (decodeStrLoopF fuel r).map (fun p => ('\x0c' :: p.1, p.2))
        else if e = 'r' then (decodeStrLoopF fuel r).map (fun p => ('\x0d' :: p.1, p.2))
        else if e = 'u' then
          match r with
          | a :: b :: c2 :: d2 :: r2 =>
            (hex4 a b c2 d2).bind (fun v =>
              if 55296 ≤ v ∧ v ≤ 56319 then
                match r2 with
                | '\\' :: 'u' :: a3 :: b3 :: c3 :: d3 :: r4 =>
                  (hex4 a3 b3 c3 d3).bind (fun w =>
                    if 56320 ≤ w ∧ w ≤ 57343 then
                      (decodeStrLoopF fuel r4).map (fun p =>
                        (Char.ofNat (65536 + (v - 55296) * 1024 + (w - 56320)) :: p.1, p.2))
                    else none)
                | _ => none
              else (decodeStrLoopF fuel r2).map (fun p => (Char.ofNat v :: p.1, p.2)))
          | _ => none
        else none
    else (decodeStrLoopF fuel rest).map (fun p => (c :: p.1, p.2))

/-- Read a complete JSON string (opening quote included). -/
def pStr : List Char → Option (List Char × List Char)
  | '"' :: r => decodeStrLoopF r.length r
  | _ => none

/-- Consume an expected literal fragment. -/
def expectL (pat l : List Char) : Option (List Char) :=
  if pat.isPrefixOf l then some (l.drop pat.length) else none

/-- Decode one files-entry. -/
def decodeFile (l : List Char) : Option (FileMeta × List Char) := do
  let l1 ← expectL (lit "\x7b\"mtime\": ") l
  let (m, l2) ← pInt l1
  let l3 ← expectL (lit ", \"name\": ") l2
  let (nm, l4) ← pStr l3
  let l5 ← expectL (lit ", \"size\": ") l4
  let (sz, l6) ← pNum l5
  let l7 ← expectL (lit "\x7d") l6
  some (⟨nm, sz, m⟩, l7)

/-- Decode the (", " entry)* "]" tail of the files list; the fuel bounds
the number of entries. -/
def decodeFilesAux (fuel : Nat) (l : List Char) : Option (List FileMeta × List Char) :=
  match l with
  | ']' :: rest => some ([], rest)
  | ',' :: ' ' :: r =>
    match fuel with
    | 0 => none
    | fuel + 1 => do
      let (f, l2) ← decodeFile r
      let (fs, l3) ← decodeFilesAux fuel l2
      some (f :: fs, l3)
  | _ => none

/-- Decode the files list: an entry first, else the empty list. -/
def decodeFiles (l : List Char) : Option (List FileMeta × List Char) :=
  match l with
  | '[' :: r =>
    (match decodeFile r with
     | some (f, l2) => (decodeFilesAux l2.length l2).bind (fun p => some (f :: p.1, p.2))
     | none =>
       match r with
       | ']' :: rest => some ([], rest)
       | _ => none)
  | _ => none

/-- Decode a whole serialized signature. -/
def decodeSig (l : List Char) : Option DirSig := do
  let l1 ← expectL (lit "\x7b\"count\": ") l
  let (cnt, l2) ← pNum l1
  let l3 ← expectL (lit ", \"files\": ") l2
  let (fs, l4) ← decodeFiles l3
  let l5 ← expectL (lit ", \"pattern\": ") l4
  let (pat, l6) ← pStr l5
  let l7 ← expectL (lit ", \"total_size\": ") l6
  let (ts, _) ← pNum l7
  some ⟨pat, fs, cnt, ts⟩

theorem takeWhile_append_sat {α : Type} {p : α → Bool} :
    ∀ (a b : List α), (∀ c ∈ a, p c = true) → (∀ d, b.head? = some d → p d = false) →
      (a ++ b).takeWhile p = a ∧ (a ++ b).dropWhile p = b
  | [], b, _, hb => by
    cases b with
    | nil => exact ⟨rfl, rfl⟩
    | cons d bs =>
      have hd := hb d rfl
      simp [List.takeWhile_cons, List.dropWhile_cons, hd]
  | a0 :: as, b, ha, hb => by
    have h0 : p a0 = true := ha a0 (List.mem_cons_self a0 as)
    have ih := takeWhile_append_sat as b (fun c hc => ha c (List.mem_cons_of_mem a0 hc)) hb
    simp [List.takeWhile_cons, List.dropWhile_cons, h0, ih.1, ih.2]

theorem natRepr_digits : ∀ (n : Nat), ∀ c ∈ natRepr n, isDigitChar c = true := by
  intro n
  induction n using natRepr.induct with
  | case1 n h =>
    intro c hc
    rw [natRepr, dif_pos h] at hc
    simp only [List.mem_singleton] at hc
    subst hc
    have hv : (48 + n).isValidChar := Or.inl (by omega)
    simp [isDigitChar, char_toNat_ofNat hv]
    omega
  | case2 n h ih =>
    intro c hc
    rw [natRepr, dif_neg h] at hc
    rcases List.mem_append.mp hc with h1 | h2
    · exact ih c h1
    · simp only [List.mem_singleton] at h2
      subst h2
      have hm : n % 10 < 10 := Nat.mod_lt _ (by omega)
      have hv : (48 + n % 10).isValidChar := Or.inl (by omega)
      simp [isDigitChar, char_toNat_ofNat hv]
      omega

theorem natRepr_cons : ∀ (n : Nat), ∃ c t, natRepr n = c :: t ∧ isDigitChar c = true := by
  intro n
  induction n using natRepr.induct with
  | case1 n h =>
    refine ⟨Char.ofNat (48 + n), [], by rw [natRepr, dif_pos h], ?_⟩
    have hv : (48 + n).isValidChar := Or.inl (by omega)
    simp [isDigitChar, char_toNat_ofNat hv]
    omega
  | case2 n h ih =>
    obtain ⟨c, t, heq, hdig⟩ := ih
    exact ⟨c, t ++ [Char.ofNat (48 + n % 10)], by rw [natRepr, dif_neg h, heq]; rfl, hdig⟩

theorem digitsToNat_append_digit (xs : List Char) (c : Char) :
    digitsToNat (xs ++ [c]) = digitsToNat xs * 10 + charDigit c := by
  unfold digitsToNat
  rw [List.foldl_append]
  rfl

theorem charDigit_ofNat {m : Nat} (h : m < 10) : charDigit (Char.ofNat (48 + m)) = m := by
  have hv : (48 + m).isValidChar := Or.inl (by omega)
  unfold charDigit
  rw [char_toNat_ofNat hv]
  omega

theorem digitsToNat_natRepr : ∀ (n : Nat), digitsToNat (natRepr n) = n := by
  intro n
  induction n using natRepr.induct with
  | case1 n h =>
    rw [natRepr, dif_pos h]
    show digitsToNat ([] ++ [Char.ofNat (48 + n)]) = n
    rw [digitsToNat_append_digit, charDigit_ofNat h]
    show 0 * 10 + n = n
    omega
  | case2 n h ih =>
    rw [natRepr, dif_neg h, digitsToNat_append_digit, ih,
      charDigit_ofNat (Nat.mod_lt _ (by omega))]
    omega

theorem pNum_natRepr (n : Nat) (rest : List Char)
    (hrest : ∀ d, rest.head? = some d → isDigitChar d = false) :
    pNum (natRepr n ++ rest) = some (n, rest) := by
  obtain ⟨htake, hdrop⟩ := takeWhile_append_sat (natRepr n) rest (natRepr_digits n) hrest
  obtain ⟨c, t, heq, _⟩ := natRepr_cons n
  unfold pNum
  rw [htake, hdrop, heq]
  simp [digitsToNat_natRepr n ▸ congrArg digitsToNat heq.symm]

theorem pInt_cons_of_ne {c : Char} (h : c ≠ '-') (cs : List Char) :
    pInt (c :: cs) = (pNum (c :: cs)).map (fun p => ((p.1 : Int), p.2)) := by
  unfold pInt
  split
  · next heq =>
    exact absurd (List.cons.injEq _ _ _ _ ▸ heq).1 h
  · rfl

theorem pInt_intRepr (i : Int) (rest : List Char)
    (hrest : ∀ d, rest.head? = some d → isDigitChar d = false) :
    pInt (intRepr i ++ rest) = some (i, rest) := by
  unfold intRepr
  by_cases hneg : i < 0
  · rw [if_pos hneg]
    show pInt ('-' :: (natRepr (-i).toNat ++ rest)) = some (i, rest)
    show Option.map (fun p => (-(p.1 : Int), p.2)) (pNum (natRepr (-i).toNat ++ rest)) =
      some (i, rest)
    rw [pNum_natRepr _ _ hrest]
    simp only [Option.map_some']
    have h1 : ((-i).toNat : Int) = -i := Int.toNat_of_nonneg (by omega)
    rw [h1, neg_neg]
  · rw [if_neg hneg]
    obtain ⟨c, t, heq, hdig⟩ := natRepr_cons i.toNat
    have hcne : c ≠ '-' := by
      intro he
      subst he
      exact absurd hdig (by decide)
    rw [heq]
    show pInt (c :: (t ++ rest)) = some (i, rest)
    rw [pInt_cons_of_ne hcne, show c :: (t ++ rest) = natRepr i.toNat ++ rest by rw [heq]; rfl,
      pNum_natRepr _ _ hrest]
    simp only [Option.map_some']
    rw [Int.toNat_of_nonneg (by omega : (0 : Int) ≤ i)]

theorem hexVal_hexChar : ∀ m, m < 16 → hexVal (hexChar m) = some m := by decide

theorem decodeStrLoopF_quote (fuel : Nat) (rest : List Char) :
    decodeStrLoopF (fuel + 1) ('"' :: rest) = some ([], rest) := by
  simp [decodeStrLoopF]

theorem decodeStrLoopF_cons_plain {c : Char} (h1 : c ≠ '"') (h2 : c ≠ '\\')
    (fuel : Nat) (l : List Char) :
    decodeStrLoopF (fuel + 1) (c :: l) =
      (decodeStrLoopF fuel l).map (fun p => (c :: p.1, p.2)) := by
  simp only [decodeStrLoopF]
  rw [if_neg h1, if_neg h2]

theorem dslF_esc_quote (f : Nat) (R : List Char) :
    decodeStrLoopF (f + 1) ('\\' :: '"' :: R) =
      (decodeStrLoopF f R).map (fun p => ('"' :: p.1, p.2)) := by
  simp [decodeStrLoopF]

theorem dslF_esc_back (f : Nat) (R : List Char) :
    decodeStrLoopF (f + 1) ('\\' :: '\\' :: R) =
      (decodeStrLoopF f R).map (fun p => ('\\' :: p.1, p.2)) := by
  simp [decodeStrLoopF]

theorem dslF_esc_b (f : Nat) (R : List Char) :
    decodeStrLoopF (f + 1) ('\\' :: 'b' :: R) =
      (decodeStrLoopF f R).map (fun p => ('\x08' :: p.1, p.2)) := by
  simp [decodeStrLoopF]

theorem dslF_esc_t (f : Nat) (R : List Char) :
    decodeStrLoopF (f + 1) ('\\' :: 't' :: R) =
      (decodeStrLoopF f R).map (fun p => ('\t' :: p.1, p.2)) := by
  simp [decodeStrLoopF]

theorem dslF_esc_n (f : Nat) (R : List Char) :
    decodeStrLoopF (f + 1) ('\\' :: 'n' :: R) =
      (decodeStrLoopF f R).map (fun p => ('\n' :: p.1, p.2)) := by
  simp [decodeStrLoopF]

theorem dslF_esc_f (f : Nat) (R : List Char) :
    decodeStrLoopF (f + 1) ('\\' :: 'f' :: R) =
      (decodeStrLoopF f R).map (fun p => ('\x0c' :: p.1, p.2)) := by
  simp [decodeStrLoopF]

theorem dslF_esc_r (f : Nat) (R : List Char) :
    decodeStrLoopF (f + 1) ('\\' :: 'r' :: R) =
      (decodeStrLoopF f R).map (fun p => ('\x0d' :: p.1, p.2)) := by
  simp [decodeStrLoopF]

theorem dslF_u_known (f : Nat) (a b c d : Char) (va vb vc vd : Nat)
    (ha : hexVal a = some va) (hb : hexVal b = some vb) (hc : hexVal c = some vc)
    (hd : hexVal d = some vd) (R : List Char)
    (hns : ¬(55296 ≤ ((va * 16 + vb) * 16 + vc) * 16 + vd ∧
      ((va * 16 + vb) * 16 + vc) * 16 + vd ≤ 56319)) :
    decodeStrLoopF (f + 1) ('\\' :: 'u' :: a :: b :: c :: d :: R) =
      (decodeStrLoopF f R).map
        (fun p => (Char.ofNat (((va * 16 + vb) * 16 + vc) * 16 + vd) :: p.1, p.2)) := by
  simp [decodeStrLoopF, hex4, ha, hb, hc, hd, hns]

theorem dslF_u_pair (f : Nat) (a b c d a2 b2 c2 d2 : Char) (va vb vc vd wa wb wc wd : Nat)
    (ha : hexVal a = some va) (hb : hexVal b = some vb) (hc : hexVal c = some vc)
    (hd : hexVal d = some vd) (ha2 : hexVal a2 = some wa) (hb2 : hexVal b2 = some wb)
    (hc2 : hexVal c2 = some wc) (hd2 : hexVal d2 = some wd) (R : List Char)
    (hs1 : 55296 ≤ ((va * 16 + vb) * 16 + vc) * 16 + vd ∧
      ((va * 16 + vb) * 16 + vc) * 16 + vd ≤ 56319)
    (hs2 : 56320 ≤ ((wa * 16 + wb) * 16 + wc) * 16 + wd ∧
      ((wa * 16 + wb) * 16 + wc) * 16 + wd ≤ 57343) :
    decodeStrLoopF (f + 1)
        ('\\' :: 'u' :: a :: b :: c :: d :: '\\' :: 'u' :: a2 :: b2 :: c2 :: d2 :: R) =
      (decodeStrLoopF f R).map
        (fun p => (Char.ofNat (65536 +
          (((va * 16 + vb) * 16 + vc) * 16 + vd - 55296) * 1024 +
          (((wa * 16 + wb) * 16 + wc) * 16 + wd - 56320)) :: p.1, p.2)) := by
  simp [decodeStrLoopF, hex4, ha, hb, hc, hd, ha2, hb2, hc2, hd2, hs1, hs2]

theorem encChar_34 {c : Char} (h : c.toNat = 34) : encChar c = ['\\', '"'] := by
  simp [encChar, h]

theorem encChar_92 {c : Char} (h : c.toNat = 92) : encChar c = ['\\', '\\'] := by
  simp [encChar, h]

theorem encChar_8 {c : Char} (h : c.toNat = 8) : encChar c = ['\\', 'b'] := by
  simp [encChar, h]

theorem encChar_9 {c : Char} (h : c.toNat = 9) : encChar c = ['\\', 't'] := by
  simp [encChar, h]

theorem encChar_10 {c : Char} (h : c.toNat = 10) : encChar c = ['\\', 'n'] := by
  simp [encChar, h]

theorem encChar_12 {c : Char} (h : c.toNat = 12) : encChar c = ['\\', 'f'] := by
  simp [encChar, h]

theorem encChar_13 {c : Char} (h : c.toNat = 13) : encChar c = ['\\', 'r'] := by
  simp [encChar, h]

theorem encChar_ctrl {c : Char} (h32 : c.toNat < 32) (h8 : c.toNat ≠ 8)
    (h9 : c.toNat ≠ 9) (h10 : c.toNat ≠ 10) (h12 : c.toNat ≠ 12) (h13 : c.toNat ≠ 13) :
    encChar c = ['\\', 'u', '0', '0', hexChar (c.toNat / 16), hexChar (c.toNat % 16)] := by
  have h34 : c.toNat ≠ 34 := by omega
  have h92 : c.toNat ≠ 92 := by omega
  simp [encChar, h34, h92, h8, h9, h10, h12, h13, h32]

theorem encChar_plain {c : Char} (h32 : 32 ≤ c.toNat) (h127 : c.toNat < 127)
    (h34 : c.toNat ≠ 34) (h92 : c.toNat ≠ 92) : encChar c = [c] := by
  have h8 : c.toNat ≠ 8 := by omega
  have h9 : c.toNat ≠ 9 := by omega
  have h10 : c.toNat ≠ 10 := by omega
  have h12 : c.toNat ≠ 12 := by omega
  have h13 : c.toNat ≠ 13 := by omega
  have h32' : ¬c.toNat < 32 := by omega
  simp [encChar, h34, h92, h8, h9, h10, h12, h13, h32', h127]

theorem encChar_bmp {c : Char} (h127 : 127 ≤ c.toNat) (h65536 : c.toNat < 65536) :
    encChar c = ['\\', 'u', hexChar (c.toNat / 4096), hexChar (c.toNat / 256 % 16),
      hexChar (c.toNat / 16 % 16), hexChar (c.toNat % 16)] := by
  have h34 : c.toNat ≠ 34 := by omega
  have h92 : c.toNat ≠ 92 := by omega
  have h8 : c.toNat ≠ 8 := by omega
  have h9 : c.toNat ≠ 9 := by omega
  have h10 : c.toNat ≠ 10 := by omega
  have h12 : c.toNat ≠ 12 := by omega
  have h13 : c.toNat ≠ 13 := by omega
  have h32' : ¬c.toNat < 32 := by omega
  have h127' : ¬c.toNat < 127 := by omega
  simp [encChar, h34, h92, h8, h9, h10, h12, h13, h32', h127', h65536]

theorem encChar_high {c : Char} (h : 65536 ≤ c.toNat) :
    encChar c = ['\\', 'u', hexChar ((55296 + (c.toNat - 65536) / 1024) / 4096),
      hexChar ((55296 + (c.toNat - 65536) / 1024) / 256 % 16),
      hexChar ((55296 + (c.toNat - 65536) / 1024) / 16 % 16),
      hexChar ((55296 + (c.toNat - 65536) / 1024) % 16),
      '\\', 'u', hexChar ((56320 + (c.toNat - 65536) % 1024) / 4096),
      hexChar ((56320 + (c.toNat - 65536) % 1024) / 256 % 16),
      hexChar ((56320 + (c.toNat - 65536) % 1024) / 16 % 16),
      hexChar ((56320 + (c.toNat - 65536) % 1024) % 16)] := by
  have h34 : c.toNat ≠ 34 := by omega
  have h92 : c.toNat ≠ 92 := by omega
  have h8 : c.toNat ≠ 8 := by omega
  have h9 : c.toNat ≠ 9 := by omega
  have h10 : c.toNat ≠ 10 := by omega
  have h12 : c.toNat ≠ 12 := by omega
  have h13 : c.toNat ≠ 13 := by omega
  have h32' : ¬c.toNat < 32 := by omega
  have h127' : ¬c.toNat < 127 := by omega
  have h65536' : ¬c.toNat < 65536 := by omega
  simp [encChar, h34, h92, h8, h9, h10, h12, h13, h32', h127', h65536']

theorem decodeStrLoopF_enc : ∀ (s : List Char) (fuel : Nat) (rest : List Char),
    s.length < fuel →
    decodeStrLoopF fuel (s.flatMap encChar ++ ('"' :: rest)) = some (s, rest) := by
  intro s
  induction s with
  | nil =>
    intro fuel rest hf
    rcases fuel with _ | f
    · exact absurd hf (by simp)
    · simpa using decodeStrLoopF_quote f rest
  | cons c s ih =>
    intro fuel rest hf
    rcases fuel with _ | f
    · exact absurd hf (by simp)
    have hf' : s.length < f := by
      simp only [List.length_cons] at hf
      omega
    have ihR := ih f rest hf'
    have hval : c.toNat < 55296 ∨ (57344 ≤ c.toNat ∧ c.toNat < 1114112) := c.valid
    rw [List.flatMap_cons, List.append_assoc]
    by_cases h34 : c.toNat = 34
    · have hc : c = '"' := char_toNat_inj (h34.trans (by decide))
      subst hc
      rw [encChar_34 (by decide)]
      simp only [List.cons_append, List.nil_append]
      rw [dslF_esc_quote, ihR]
      rfl
    by_cases h92 : c.toNat = 92
    · have hc : c = '\\' := char_toNat_inj (h92.trans (by decide))
      subst hc
      rw [encChar_92 (by decide)]
      simp only [List.cons_append, List.nil_append]
      rw [dslF_esc_back, ihR]
      rfl
    by_cases h8 : c.toNat = 8
    · have hc : c = '\x08' := char_toNat_inj (h8.trans (by decide))
      subst hc
      rw [encChar_8 (by decide)]
      simp only [List.cons_append, List.nil_append]
      rw [dslF_esc_b, ihR]
      rfl
    by_cases h9 : c.toNat = 9
    · have hc : c = '\t' := char_toNat_inj (h9.trans (by decide))
      subst hc
      rw [encChar_9 (by decide)]
      simp only [List.cons_append, List.nil_append]
      rw [dslF_esc_t, ihR]
      rfl
    by_cases h10 : c.toNat = 10
    · have hc : c = '\n' := char_toNat_inj (h10.trans (by decide))
      subst hc
      rw [encChar_10 (by decide)]
      simp only [List.cons_append, List.nil_append]
      rw [dslF_esc_n, ihR]
      rfl
    by_cases h12 : c.toNat = 12
    · have hc : c = '\x0c' := char_toNat_inj (h12.trans (by decide))
      subst hc
      rw [encChar_12 (by decide)]
      simp only [List.cons_append, List.nil_append]
      rw [dslF_esc_f, ihR]
      rfl
    by_cases h13 : c.toNat = 13
    · have hc : c = '\x0d' := char_toNat_inj (h13.trans (by decide))
      subst hc
      rw [encChar_13 (by decide)]
      simp only [List.cons_append, List.nil_append]
      rw [dslF_esc_r, ihR]
      rfl
    by_cases h32 : c.toNat < 32
    · rw [encChar_ctrl h32 h8 h9 h10 h12 h13]
      simp only [List.cons_append, List.nil_append]
      rw [dslF_u_known f '0' '0' (hexChar (c.toNat / 16)) (hexChar (c.toNat % 16))
        0 0 (c.toNat / 16) (c.toNat % 16) (by decide) (by decide)
        (hexVal_hexChar _ (by omega)) (hexVal_hexChar _ (by omega)) _ (by omega), ihR]
      simp only [Option.map_some']
      have hV : ((0 * 16 + 0) * 16 + c.toNat / 16) * 16 + c.toNat % 16 = c.toNat := by omega
      rw [hV, Char.ofNat_toNat]
    by_cases h127 : c.toNat < 127
    · rw [encChar_plain (by omega) h127 h34 h92]
      simp only [List.cons_append, List.nil_append]
      rw [decodeStrLoopF_cons_plain (fun he => h34 (by subst he; decide))
        (fun he => h92 (by subst he; decide)) f _, ihR]
      rfl
    by_cases h65536 : c.toNat < 65536
    · rw [encChar_bmp (by omega) h65536]
      simp only [List.cons_append, List.nil_append]
      rw [dslF_u_known f (hexChar (c.toNat / 4096)) (hexChar (c.toNat / 256 % 16))
        (hexChar (c.toNat / 16 % 16)) (hexChar (c.toNat % 16))
        (c.toNat / 4096) (c.toNat / 256 % 16) (c.toNat / 16 % 16) (c.toNat % 16)
        (hexVal_hexChar _ (by omega)) (hexVal_hexChar _ (by omega))
        (hexVal_hexChar _ (by omega)) (hexVal_hexChar _ (by omega)) _ (by omega), ihR]
      simp only [Option.map_some']
      have hV : ((c.toNat / 4096 * 16 + c.toNat / 256 % 16) * 16 + c.toNat / 16 % 16) * 16 +
          c.toNat % 16 = c.toNat := by omega
      rw [hV, Char.ofNat_toNat]
    · rw [encChar_high (by omega)]
      simp only [List.cons_append, List.nil_append]
      set hi := 55296 + (c.toNat - 65536) / 1024 with hhi
      set lo := 56320 + (c.toNat - 65536) % 1024 with hlo
      rw [dslF_u_pair f (hexChar (hi / 4096)) (hexChar (hi / 256 % 16))
        (hexChar (hi / 16 % 16)) (hexChar (hi % 16))
        (hexChar (lo / 4096)) (hexChar (lo / 256 % 16))
        (hexChar (lo / 16 % 16)) (hexChar (lo % 16))
        (hi / 4096) (hi / 256 % 16) (hi / 16 % 16) (hi % 16)
        (lo / 4096) (lo / 256 % 16) (lo / 16 % 16) (lo % 16)
        (hexVal_hexChar _ (by omega)) (hexVal_hexChar _ (by omega))
        (hexVal_hexChar _ (by omega)) (hexVal_hexChar _ (by omega))
        (hexVal_hexChar _ (by omega)) (hexVal_hexChar _ (by omega))
        (hexVal_hexChar _ (by omega)) (hexVal_hexChar _ (by omega))
        _ (by omega) (by omega), ihR]
      simp only [Option.map_some']
      have hV : 65536 +
          (((hi / 4096 * 16 + hi / 256 % 16) * 16 + hi / 16 % 16) * 16 + hi % 16 - 55296) *
            1024 +
          (((lo / 4096 * 16 + lo / 256 % 16) * 16 + lo / 16 % 16) * 16 + lo % 16 - 56320) =
          c.toNat := by omega
      rw [hV, Char.ofNat_toNat]

theorem encChar_length_pos (c : Char) : 1 ≤ (encChar c).length := by
  by_cases h34 : c.toNat = 34
  · simp [encChar_34 h34]
  by_cases h92 : c.toNat = 92
  · simp [encChar_92 h92]
  by_cases h8 : c.toNat = 8
  · simp [encChar_8 h8]
  by_cases h9 : c.toNat = 9
  · simp [encChar_9 h9]
  by_cases h10 : c.toNat = 10
  · simp [encChar_10 h10]
  by_cases h12 : c.toNat = 12
  · simp [encChar_12 h12]
  by_cases h13 : c.toNat = 13
  · simp [encChar_13 h13]
  by_cases h32 : c.toNat < 32
  · simp [encChar_ctrl h32 h8 h9 h10 h12 h13]
  by_cases h127 : c.toNat < 127
  · simp [encChar_plain (by omega) h127 h34 h92]
  by_cases h65536 : c.toNat < 65536
  · simp [encChar_bmp (by omega) h65536]
  · simp [encChar_high (Nat.le_of_not_lt h65536)]

theorem flatMap_enc_length (s : List Char) : s.length ≤ (s.flatMap encChar).length := by
  induction s with
  | nil => simp
  | cons c t ih =>
    rw [List.flatMap_cons, List.length_append, List.length_cons]
    have := encChar_length_pos c
    omega

theorem pStr_encStr (s rest : List Char) : pStr (encStr s ++ rest) = some (s, rest) := by
  show pStr ('"' :: ((s.flatMap encChar ++ ['"']) ++ rest)) = some (s, rest)
  show decodeStrLoopF ((s.flatMap encChar ++ ['"']) ++ rest).length
    ((s.flatMap encChar ++ ['"']) ++ rest) = some (s, rest)
  rw [List.append_assoc]
  show decodeStrLoopF (s.flatMap encChar ++ ('"' :: rest)).length
    (s.flatMap encChar ++ ('"' :: rest)) = some (s, rest)
  apply decodeStrLoopF_enc
  rw [List.length_append, List.length_cons]
  have := flatMap_enc_length s
  omega

theorem expectL_append (pat rest : List Char) : expectL pat (pat ++ rest) = some rest := by
  unfold expectL
  rw [if_pos (List.isPrefixOf_iff_prefix.mpr (List.prefix_append pat rest)), List.drop_left]

theorem head_not_digit_cons {c0 : Char} (hc : isDigitChar c0 = false) (t : List Char) :
    ∀ d, (c0 :: t).head? = some d → isDigitChar d = false := by
  intro d hd
  injection hd with h1
  exact h1 ▸ hc

theorem decodeFile_ser (fm : FileMeta) (rest : List Char) :
    decodeFile (serializeFile fm ++ rest) = some (fm, rest) := by
  obtain ⟨nm, sz, mt⟩ := fm
  unfold serializeFile decodeFile
  simp only [List.append_assoc]
  rw [expectL_append]
  simp only [Option.bind_eq_bind, Option.some_bind]
  rw [pInt_intRepr mt
    (lit ", \"name\": " ++ (encStr nm ++ (lit ", \"size\": " ++ (natRepr sz ++
      (lit "\x7d" ++ rest)))))
    (head_not_digit_cons (by decide) _)]
  simp only [Option.bind_eq_bind, Option.some_bind]
  rw [expectL_append]
  simp only [Option.bind_eq_bind, Option.some_bind]
  rw [pStr_encStr]
  simp only [Option.bind_eq_bind, Option.some_bind]
  rw [expectL_append]
  simp only [Option.bind_eq_bind, Option.some_bind]
  rw [pNum_natRepr sz (lit "\x7d" ++ rest) (head_not_digit_cons (by decide) _)]
  simp only [Option.bind_eq_bind, Option.some_bind]
  rw [expectL_append]
  simp only [Option.bind_eq_bind, Option.some_bind]

theorem length_le_flatMap {α β : Type} (f : α → List β) (h : ∀ a, 1 ≤ (f a).length) :
    ∀ l : List α, l.length ≤ (l.flatMap f).length := by
  intro l
  induction l with
  | nil => simp
  | cons a t ih =>
    rw [List.flatMap_cons, List.length_append, List.length_cons]
    have := h a
    omega

theorem decodeFilesAux_ser : ∀ (fs : List FileMeta) (fuel : Nat) (rest : List Char),
    fs.length ≤ fuel →
    decodeFilesAux fuel
      ((fs.flatMap (fun g => lit ", " ++ serializeFile g)) ++ (']' :: rest)) =
      some (fs, rest) := by
  intro fs
  induction fs with
  | nil =>
    intro fuel rest _
    simp [decodeFilesAux]
  | cons f gs ih =>
    intro fuel rest hf
    rcases fuel with _ | fuel
    · exact absurd hf (by simp)
    rw [List.flatMap_cons, List.append_assoc, List.append_assoc]
    show decodeFilesAux (fuel + 1) (',' :: ' ' ::
      (serializeFile f ++ (gs.flatMap (fun g => lit ", " ++ serializeFile g) ++
        (']' :: rest)))) = some (f :: gs, rest)
    simp only [decodeFilesAux]
    rw [decodeFile_ser]
    simp only [Option.bind_eq_bind, Option.some_bind]
    rw [ih fuel rest (by simp at hf; omega)]
    rfl

theorem decodeFiles_ser (fs : List FileMeta) (rest : List Char) :
    decodeFiles (serializeFiles fs ++ rest) = some (fs, rest) := by
  cases fs with
  | nil =>
    show decodeFiles ('[' :: (']' :: rest)) = some ([], rest)
    simp only [decodeFiles]
    have hnone : decodeFile (']' :: rest) = none := rfl
    rw [hnone]
  | cons f gs =>
    show decodeFiles ('[' :: ((serializeFile f ++
      gs.flatMap (fun g => lit ", " ++ serializeFile g) ++ [']']) ++ rest)) =
      some (f :: gs, rest)
    rw [List.append_assoc, List.append_assoc]
    show decodeFiles ('[' :: (serializeFile f ++
      (gs.flatMap (fun g => lit ", " ++ serializeFile g) ++ (']' :: rest)))) =
      some (f :: gs, rest)
    simp only [decodeFiles]
    rw [decodeFile_ser]
    show (decodeFilesAux
        ((gs.flatMap fun g => lit ", " ++ serializeFile g) ++ ']' :: rest).length
        ((gs.flatMap fun g => lit ", " ++ serializeFile g) ++ ']' :: rest)).bind
      (fun p => some (f :: p.1, p.2)) = some (f :: gs, rest)
    rw [decodeFilesAux_ser gs _ rest ?hb]
    case hb =>
      have h1 := length_le_flatMap (fun g => lit ", " ++ serializeFile g)
        (fun g => by simp [lit]) gs
      simp only [List.length_append, List.length_cons]
      omega
    rfl

theorem decodeSig_ser (s : DirSig) : decodeSig (serializeSig s) = some s := by
  obtain ⟨pat, fs, cnt, ts⟩ := s
  unfold serializeSig decodeSig
  simp only [List.append_assoc]
  rw [expectL_append]
  simp only [Option.bind_eq_bind, Option.some_bind]
  rw [pNum_natRepr cnt
    (lit ", \"files\": " ++ (serializeFiles fs ++ (lit ", \"pattern\": " ++
      (encStr pat ++ (lit ", \"total_size\": " ++ (natRepr ts ++ lit "\x7d"))))))
    (head_not_digit_cons (by decide) _)]
  simp only [Option.bind_eq_bind, Option.some_bind]
  rw [expectL_append]
  simp only [Option.bind_eq_bind, Option.some_bind]
  rw [decodeFiles_ser]
  simp only [Option.bind_eq_bind, Option.some_bind]
  rw [expectL_append]
  simp only [Option.bind_eq_bind, Option.some_bind]
  rw [pStr_encStr]
  simp only [Option.bind_eq_bind, Option.some_bind]
  rw [expectL_append]
  simp only [Option.bind_eq_bind, Option.some_bind]
  rw [pNum_natRepr ts (lit "\x7d") (head_not_digit_cons (by decide) _)]
  simp only [Option.bind_eq_bind, Option.some_bind]

theorem serializeSig_inj {a b : DirSig} (h : serializeSig a = serializeSig b) : a = b := by
  have ha := decodeSig_ser a
  have hb := decodeSig_ser b
  rw [h, hb] at ha
  exact (Option.some.injEq _ _ ▸ ha).symm

theorem same_signature_iff (a b : DirSig) : _same_signature a b = true ↔ a = b := by
  unfold _same_signature
  constructor
  · intro h
    exact serializeSig_inj (beq_iff_eq.mp h)
  · intro h
    subst h
    exact beq_self_eq_true _

/-- C5 counterexample: `int(st_mtime)` truncates mtimes to whole seconds,
so changing a matched file's modification time within the same second
(here 100.25 s → 100.75 s) leaves the directory signature unchanged. -/
theorem claim_C5_counterexample :
    (mkRat 401 4 : ℚ) ≠ mkRat 403 4 ∧
    _dir_signature [⟨"75_2020.csv".toList, 10, mkRat 401 4⟩] ("75_*.csv".toList) =
      _dir_signature [⟨"75_2020.csv".toList, 10, mkRat 403 4⟩] ("75_*.csv".toList) := by
  constructor
  · decide
  · decide

/-- C5 (amended): two directory signatures are equal exactly when their
canonical (sorted-keys JSON) serializations are byte-identical — the
comparison `_same_signature` decides true precisely on equal signatures;
computing the signature twice on an unchanged directory yields equal
signatures; but changing a matched file's modification time changes the
signature only up to whole-second truncation: for a single matched file
the signatures differ iff the truncated seconds `int(st_mtime)` differ. -/
theorem claim_C5_amended :
    (∀ a b : DirSig, _same_signature a b = true ↔ a = b) ∧
    (∀ (fs : List FSFile) (pat : List Char),
      _same_signature (_dir_signature fs pat) (_dir_signature fs pat) = true) ∧
    (∀ (name : List Char) (size : Nat) (q1 q2 : ℚ) (pat : List Char),
      globMatch pat name = true →
      (_dir_signature [⟨name, size, q1⟩] pat = _dir_signature [⟨name, size, q2⟩] pat ↔
        pyInt q1 = pyInt q2)) := by
  refine ⟨same_signature_iff, ?_, ?_⟩
  · intro fs pat
    exact (same_signature_iff _ _).mpr rfl
  · intro name size q1 q2 pat hglob
    unfold _dir_signature
    simp [List.filter, hglob, List.insertionSort, List.orderedInsert,
      DirSig.mk.injEq, List.cons.injEq, FileMeta.mk.injEq]

/-- C5 witness: for the concrete matched file 75_2020.csv, signatures at
mtimes 100.25 and 100.75 are equal exactly when the truncated seconds
agree. -/
theorem claim_C5_amended_witness :
    globMatch ("75_*.csv".toList) ("75_2020.csv".toList) = true ∧
    (_dir_signature [⟨"75_2020.csv".toList, 10, mkRat 401 4⟩] ("75_*.csv".toList) =
      _dir_signature [⟨"75_2020.csv".toList, 10, mkRat 403 4⟩] ("75_*.csv".toList) ↔
     pyInt (mkRat 401 4) = pyInt (mkRat 403 4)) :=
  ⟨by decide, claim_C5_amended.2.2 ("75_2020.csv".toList) 10 (mkRat 401 4) (mkRat 403 4)
    ("75_*.csv".toList) (by decide)⟩
